import Mathlib

/-!
Verification of the data-partitioning engine of
distributed-learning-contributivity.

The development shallowly embeds `Scenario.split_data` and
`Scenario.split_data_advanced` from `scenario.py`, and
`Dataset.shorten_dataset_proportion` from `mplc/dataset.py`.

Modelling conventions, used uniformly below:
- Python floats are modelled as rationals; Python `int(x)` is truncation
  toward zero (`pyInt`).
- Python list/array slicing `a[x:y]` with step 1 is modelled by `pySlice`
  with Python's index-normalisation (negative wrap-around, clamping).
- The fixed-seed `random.shuffle` of the label list, the fixed-seed
  `np.random.shuffle` of the train indices, the `np.argsort` order and the
  `random.sample` draws of shared clusters are deterministic values fixed
  by the seeds; they enter the embedding as explicit parameters
  (`labels`, the permutation argument of `splitData`, `sharedDraw`),
  constrained by hypotheses exactly where a claim needs their contracts.
- Run-time exceptions (AssertionError, ZeroDivisionError, ValueError,
  IndexError, NameError) become explicit error values, produced at the
  program point where Python would raise; partner population state at the
  moment of the raise is part of the result.
-/

set_option maxHeartbeats 1000000
set_option maxRecDepth 10000

deriving instance DecidableEq for Except

/-- Python `int(x)` on a rational: truncation toward zero. -/
def pyInt (q : ℚ) : ℤ := Int.tdiv q.num q.den

/-- Python round-half-to-even (`round(x)`) on a rational. -/
def pyRound (q : ℚ) : ℤ :=
  let f : ℤ := ⌊q⌋
  let r : ℚ := q - f
  if r < 1/2 then f
  else if 1/2 < r then f + 1
  else if Even f then f else f + 1

/-- Normalise one endpoint of a Python slice of a sequence of length `len`:
negative indices count from the end, and both ends are clamped. -/
def sliceNorm (len : ℕ) (i : ℤ) : ℕ :=
  if i < 0 then ((len : ℤ) + i).toNat else min i.toNat len

/-- Python `l[a:b]` (step 1). -/
def pySlice (l : List α) (a b : ℤ) : List α :=
  (l.take (sliceNorm l.length b)).drop (sliceNorm l.length a)

/-- Python `l[:b]` (step 1). -/
def pyTake (l : List α) (b : ℤ) : List α :=
  l.take (sliceNorm l.length b)

/-- `numpy.split l [i1, ..., ik]`: the pieces `l[0:i1], l[i1:i2], ..., l[ik:]`,
accumulated from the previous cut point `prev`. -/
def npSplitGo (l : List α) : ℤ → List ℤ → List (List α)
  | prev, [] => [pySlice l prev l.length]
  | prev, i :: rest => pySlice l prev i :: npSplitGo l i rest

/-- `numpy.split` of a list at a list of cut indices. -/
def npSplit (l : List α) (idxs : List ℤ) : List (List α) :=
  npSplitGo l 0 idxs

/-- Python `min` of a nonempty list of rationals (0 for the empty list,
which the call sites never pass). -/
def pyMinQ : List ℚ → ℚ
  | [] => 0
  | x :: xs => xs.foldl min x

/-- Python `min` of a nonempty list of naturals (0 for the empty list). -/
def pyMinNat : List ℕ → ℕ
  | [] => 0
  | x :: xs => xs.foldl min x

section SimpleSplitter

/-- The `samples_split_option` string of the simple path: the two recognized
values, and any unrecognized string. -/
inductive SimpleMode
  | random
  | stratified
  | unrecognized
deriving DecidableEq

/-- Exceptions `split_data` can raise, named by their raise site:
the two asserts at lines 418-419, the IndexError of line 424 when
`partners_count = 1`, the NameError of line 453, and the final
minibatch assert of line 487. -/
inductive SimpleErr
  | assertLen
  | assertSum
  | indexError
  | nameError
  | minibatchAssert
deriving DecidableEq

/-- Configuration consumed by `Scenario.split_data`: sizes of the global
train and test sets, `partners_count`, `amounts_per_partner`, and
`minibatch_count`. -/
structure SimpleConfig where
  nTrain : ℕ
  nTest : ℕ
  partnersCount : ℕ
  amounts : List ℚ
  minibatchCount : ℕ

/-- Result of `split_data`: per-partner populated data (train indices into
the possibly re-ordered train array, test indices into the test array), in
partner-id order, `none` when the partner was never populated; plus the
exception raised, if any. -/
structure SimpleOutcome where
  populated : List (Option (List ℕ × List ℕ))
  err : Option SimpleErr
deriving DecidableEq

/-- The loop of scenario.py lines 423-428: `s[0] = a[0]`,
`s[i+1] = s[i] + a[i+1]` for `i` in `range(K-2)`.  `fracLoop a n` is the
array after the slot `n` has been written, i.e. `[s_0, ..., s_n]`. -/
def fracLoop (a : List ℚ) : ℕ → List ℚ
  | 0 => [a.getD 0 0]
  | n + 1 => fracLoop a n ++ [(fracLoop a n).getD n 0 + a.getD (n + 1) 0]

/-- The `K-1` splitting fractions of `split_data` (empty for `K ≤ 1`; the
code errors before using them in that case). -/
def codeSplitFracs (a : List ℚ) (K : ℕ) : List ℚ :=
  if K ≤ 1 then [] else fracLoop a (K - 2)

/-- The splitting fractions exactly as the specification words them:
the cumulative sums of the first `K-1` fractions (cumulative sum excluding
the trailing 1.0).  Stated from the spec text, to be compared with
`codeSplitFracs` (the loop found in the code). -/
def specCumsumFracs (a : List ℚ) (K : ℕ) : List ℚ :=
  (List.range (K - 1)).map fun j => (a.take (j + 1)).sum

/-- `splitting_indices_train` of line 429: the fractions scaled by the train
set size and truncated (`astype(int)`). -/
def splittingIndicesTrain (cfg : SimpleConfig) : List ℤ :=
  (codeSplitFracs cfg.amounts cfg.partnersCount).map fun s => pyInt (s * (cfg.nTrain : ℚ))

/-- `splitting_indices_test` of line 430. -/
def splittingIndicesTest (cfg : SimpleConfig) : List ℤ :=
  (codeSplitFracs cfg.amounts cfg.partnersCount).map fun s => pyInt (s * (cfg.nTest : ℚ))

/-- The train pieces of lines 462: `np.split(train_idx, splitting_indices_train)`,
where `train_idx` is the (possibly shuffled) index vector. -/
def trainPieces (cfg : SimpleConfig) (tIdx : List ℕ) : List (List ℕ) :=
  npSplit tIdx (splittingIndicesTrain cfg)

/-- The test pieces of line 463: `np.split(test_idx, splitting_indices_test)`;
`test_idx = np.arange(len(y_test))` is never re-ordered. -/
def testPieces (cfg : SimpleConfig) : List (List ℕ) :=
  npSplit (List.range cfg.nTest) (splittingIndicesTest cfg)

/-- Lines 459-487 of `split_data`: cut both index vectors and populate the
partners, then check the minibatch precondition (which uses
`min(amounts) * len(x_train)`). -/
def simplePopulate (cfg : SimpleConfig) (tIdx : List ℕ) : SimpleOutcome :=
  let pop := ((trainPieces cfg tIdx).zip (testPieces cfg)).map some
  if (cfg.minibatchCount : ℚ) ≤ pyMinQ cfg.amounts * (cfg.nTrain : ℚ) then
    ⟨pop, none⟩
  else
    ⟨pop, some .minibatchAssert⟩

/-- `Scenario.split_data` (scenario.py lines 404-489).  `π` is the value of
the fixed-seed `np.random.shuffle` of `train_idx`, used only in `random`
mode; in `stratified` mode the data arrays are re-ordered but `train_idx`
stays `np.arange`. -/
def splitData (cfg : SimpleConfig) (mode : SimpleMode) (π : List ℕ) : SimpleOutcome :=
  let nones : List (Option (List ℕ × List ℕ)) := List.replicate cfg.partnersCount none
  if cfg.amounts.length ≠ cfg.partnersCount then ⟨nones, some .assertLen⟩
  else if cfg.amounts.sum ≠ 1 then ⟨nones, some .assertSum⟩
  else if cfg.partnersCount = 1 then ⟨nones, some .indexError⟩
  else
    match mode with
    | .unrecognized => ⟨nones, some .nameError⟩
    | .random => simplePopulate cfg π
    | .stratified => simplePopulate cfg (List.range cfg.nTrain)

end SimpleSplitter

section AdvancedSplit

/-- `cluster_split_option` of a partner in advanced mode. -/
inductive SplitKind
  | shared
  | specific
deriving DecidableEq

/-- Advanced-mode descriptor of one partner: its `cluster_count` and its
`cluster_split_option`, i.e. one entry of `samples_split_option`. -/
structure AdvPartner where
  clusterCount : ℕ
  kind : SplitKind
deriving DecidableEq

/-- Exceptions `split_data_advanced` can raise, named by their raise site:
the coherence assert of line 257, a ZeroDivisionError at any of the
division sites (lines 307, 320, 334, 347, 353, 355), the ValueError of
`min([])` at line 387 when there are no partners, and the minibatch assert
of line 387.  `allocationError` models the explicit allocation-error guard
posited by the specification; no statement in the code produces it, which
is exactly what the development establishes. -/
inductive ErrKind
  | coherenceAssert
  | zeroDivision
  | valueError
  | minibatchAssert
  | allocationError
deriving DecidableEq

/-- Configuration consumed by `Scenario.split_data_advanced`.
`yTrain` is the global train label array; `labels` is the value of
`random.shuffle(list(set(y_train)))` under the fixed seed (a permutation of
the distinct labels, passed explicitly); `sharedDraw i` is the value of
`random.sample(shared_clusters, k)` for partner `i`. -/
structure AdvConfig where
  yTrain : List ℤ
  labels : List ℤ
  partners : List AdvPartner
  amounts : List ℚ
  minibatchCount : ℕ
  sharedDraw : ℕ → List ℤ

/-- Result of `split_data_advanced`: per-partner train data (the global
train indices the partner receives), in partner-id order, `none` when the
partner was never populated; plus the exception raised, if any. -/
structure AdvOutcome where
  populated : List (Option (List ℕ))
  err : Option ErrKind
deriving DecidableEq

/-- Number of global train samples, `len(y_train)`. -/
def nTrain (cfg : AdvConfig) : ℕ := cfg.yTrain.length

/-- `count_per_cluster[label]` (line 265): number of train samples carrying
the label. -/
def countPerCluster (cfg : AdvConfig) (l : ℤ) : ℕ := cfg.yTrain.count l

/-- The index content of a cluster, `np.where(y_train == label)` (line 262):
the train indices carrying the label, in original order. -/
def clusterIdx (cfg : AdvConfig) (l : ℤ) : List ℕ :=
  (List.range (nTrain cfg)).filter fun i => cfg.yTrain.getD i 0 = l

/-- `cluster_count` of partner `i` (line 239). -/
def pcc (cfg : AdvConfig) (i : ℕ) : ℕ := (cfg.partners.getD i ⟨0, .shared⟩).clusterCount

/-- `cluster_split_option` of partner `i` (line 240). -/
def pkind (cfg : AdvConfig) (i : ℕ) : SplitKind := (cfg.partners.getD i ⟨0, .shared⟩).kind

/-- Ids of `partners_with_specific_clusters` (line 243), in partner order. -/
def specIds (cfg : AdvConfig) : List ℕ :=
  (List.range cfg.partners.length).filter fun i => pkind cfg i = .specific

/-- Ids of `partners_with_shared_clusters` (line 242), in partner order. -/
def sharedIds (cfg : AdvConfig) : List ℕ :=
  (List.range cfg.partners.length).filter fun i => pkind cfg i = .shared

/-- Stable insertion of `x` into a list already sorted by `key` descending:
`x` goes after every element of key `≥ key x`.  Together with `sortKeyDesc`
this models Python's stable `sorted(..., key=..., reverse=True)`. -/
def insertKeyDesc (key : ℕ → ℕ) (x : ℕ) : List ℕ → List ℕ
  | [] => [x]
  | y :: ys => if key y < key x then x :: y :: ys else y :: insertKeyDesc key x ys

/-- Stable sort by `key` descending (lines 267-277). -/
def sortKeyDesc (key : ℕ → ℕ) : List ℕ → List ℕ
  | [] => []
  | x :: xs => insertKeyDesc key x (sortKeyDesc key xs)

/-- `partners_with_specific_clusters` after the sort of lines 273-277. -/
def specSorted (cfg : AdvConfig) : List ℕ := sortKeyDesc (pcc cfg) (specIds cfg)

/-- `partners_with_shared_clusters` after the sort of lines 268-272. -/
def sharedSorted (cfg : AdvConfig) : List ℕ := sortKeyDesc (pcc cfg) (sharedIds cfg)

/-- `specific_clusters_count` (line 252). -/
def specTotal (cfg : AdvConfig) : ℕ := ((specIds cfg).map (pcc cfg)).sum

/-- `shared_clusters_count` (lines 253-256): the max `cluster_count` over
shared partners, `0` when there are none. -/
def sharedMax (cfg : AdvConfig) : ℕ := ((sharedIds cfg).map (pcc cfg)).foldr max 0

/-- The coherence precondition asserted at line 257. -/
def coherenceOk (cfg : AdvConfig) : Prop :=
  specTotal cfg + sharedMax cfg ≤ cfg.labels.length

instance (cfg : AdvConfig) : Decidable (coherenceOk cfg) := by
  unfold coherenceOk; infer_instance

/-- The walk of lines 283-286: assign to each specific partner, in sorted
order, the next `cluster_count` labels `labels[index:index+cc]`. -/
def assignWalk (cfg : AdvConfig) : List ℕ → ℕ → List (ℕ × List ℤ)
  | [], _ => []
  | i :: rest, off =>
      (i, (cfg.labels.drop off).take (pcc cfg i)) :: assignWalk cfg rest (off + pcc cfg i)

/-- `dict_specific[..]["clusters_list"]` as an association list. -/
def specAssign (cfg : AdvConfig) : List (ℕ × List ℤ) := assignWalk cfg (specSorted cfg) 0

/-- Total lookup in an association list, `[]` when absent. -/
def lookupD (i : ℕ) : List (ℕ × List ℤ) → List ℤ
  | [] => []
  | (j, b) :: rest => if j = i then b else lookupD i rest

/-- `dict_specific[i]["clusters_list"]`. -/
def clustersOfSpec (cfg : AdvConfig) (i : ℕ) : List ℤ := lookupD i (specAssign cfg)

/-- The value of `index` after the walk (line 286). -/
def indexAfter (cfg : AdvConfig) : ℕ := ((specSorted cfg).map (pcc cfg)).sum

/-- `shared_clusters` (line 289): the next `shared_clusters_count` labels. -/
def sharedClusters (cfg : AdvConfig) : List ℤ :=
  (cfg.labels.drop (indexAfter cfg)).take (sharedMax cfg)

/-- `clusters_list` of partner `i` (specific: its walk block; shared: its
`random.sample` draw, line 291). -/
def clustersOf (cfg : AdvConfig) (i : ℕ) : List ℤ :=
  match pkind cfg i with
  | .specific => clustersOfSpec cfg i
  | .shared => cfg.sharedDraw i

/-- `nb_available_samples` of a specific partner (line 303). -/
def countAvailable (cfg : AdvConfig) (i : ℕ) : ℕ :=
  ((clustersOfSpec cfg i).map (countPerCluster cfg)).sum

/-- `nb_samples_configured` of a partner (line 304):
`int(amounts_per_partner[i] * len(y_train))`. -/
def countInitial (cfg : AdvConfig) (i : ℕ) : ℤ :=
  pyInt (cfg.amounts.getD i 0 * (nTrain cfg : ℚ))

/-- The Stage-A ratio of a specific partner (line 307). -/
def specRatio (cfg : AdvConfig) (i : ℕ) : ℚ :=
  (countAvailable cfg i : ℚ) / (countInitial cfg i : ℚ)

/-- The loop of lines 302-308: fold `resize_factor = min(resize_factor,
available / configured)` over the sorted specific partners, raising
ZeroDivisionError when a configured count is `0`. -/
def stageAFold (cfg : AdvConfig) : List ℕ → ℚ → Except ErrKind ℚ
  | [], acc => .ok acc
  | i :: rest, acc =>
      if countInitial cfg i = 0 then .error .zeroDivision
      else stageAFold cfg rest (min acc (specRatio cfg i))

/-- `resize_factor` after the specific pass (starts at 1, line 298). -/
def resizeA (cfg : AdvConfig) : Except ErrKind ℚ := stageAFold cfg (specSorted cfg) 1

/-- `nb_samples_configured_resized` of a shared partner (line 319). -/
def amountResized (cfg : AdvConfig) (A : ℚ) (i : ℕ) : ℤ :=
  pyInt (cfg.amounts.getD i 0 * (nTrain cfg : ℚ) * A)

/-- `nb_samples_configured_resized_per_cluster` of a shared partner
(line 320), junk `pyInt` of a division by zero when `cluster_count = 0`
(that case raises instead, see `stageBPartnersOk`). -/
def perClusterResized (cfg : AdvConfig) (A : ℚ) (i : ℕ) : ℤ :=
  pyInt ((amountResized cfg A i : ℚ) / (pcc cfg i : ℚ))

/-- The loop of lines 318-324 raises ZeroDivisionError at the first shared
partner with `cluster_count = 0`. -/
def stageBPartnersOk (cfg : AdvConfig) : List ℕ → Except ErrKind Unit
  | [] => .ok ()
  | i :: rest =>
      if pcc cfg i = 0 then .error .zeroDivision else stageBPartnersOk cfg rest

/-- `nb_samples_needed_per_cluster[cl]` (lines 316-324): summed per-cluster
demand over every shared partner drawing the cluster (counted with
multiplicity in its draw). -/
def neededPerCluster (cfg : AdvConfig) (A : ℚ) (cl : ℤ) : ℤ :=
  (((sharedSorted cfg).map fun i =>
      ((cfg.sharedDraw i).count cl : ℤ) * perClusterResized cfg A i)).sum

/-- The loop of lines 330-334: fold `bigger_need = min(bigger_need,
count / needed)` over the shared pool (dict key order = pool order),
raising ZeroDivisionError when a needed count is `0`. -/
def stageBFold (cfg : AdvConfig) (A : ℚ) : List ℤ → ℚ → Except ErrKind ℚ
  | [], acc => .ok acc
  | cl :: rest, acc =>
      if neededPerCluster cfg A cl = 0 then .error .zeroDivision
      else stageBFold cfg A rest
        (min acc ((countPerCluster cfg cl : ℚ) / (neededPerCluster cfg A cl : ℚ)))

/-- `bigger_need` (starts at 1, line 330), after the per-partner resize loop. -/
def stageB (cfg : AdvConfig) (A : ℚ) : Except ErrKind ℚ :=
  match stageBPartnersOk cfg (sharedSorted cfg) with
  | .error e => .error e
  | .ok _ => stageBFold cfg A (sharedClusters cfg) 1

/-- `final_resize_factor = resize_factor * bigger_need` (line 337). -/
def finalF (cfg : AdvConfig) : Except ErrKind ℚ :=
  match resizeA cfg with
  | .error e => .error e
  | .ok A =>
      match stageB cfg A with
      | .error e => .error e
      | .ok B => .ok (A * B)

/-- `final_nb_samples[i]` (lines 343, 349). -/
def finalNb (cfg : AdvConfig) (F : ℚ) (i : ℕ) : ℤ :=
  pyInt (cfg.amounts.getD i 0 * (nTrain cfg : ℚ) * F)

/-- `final_nb_samples_p_cluster` of partner `i` (lines 346-347, 352-353):
`int(final_nb_samples / cluster_count)` (Python float division). -/
def quota (cfg : AdvConfig) (F : ℚ) (i : ℕ) : ℤ :=
  pyInt ((finalNb cfg F i : ℚ) / (pcc cfg i : ℚ))

/-- `total_nb_samples` (line 354): `final_nb_samples` has one entry per
partner id. -/
def totalNb (cfg : AdvConfig) (F : ℚ) : ℤ :=
  ((List.range cfg.partners.length).map (finalNb cfg F)).sum

/-- The train indices partner `i` receives (lines 364-384): for each cluster
of its list, the first `final_nb_samples_p_cluster` indices of the cluster,
concatenated. -/
def partnerTrainIdx (cfg : AdvConfig) (F : ℚ) (i : ℕ) : List ℕ :=
  (((clustersOf cfg i).map fun cl => pyTake (clusterIdx cfg cl) (quota cfg F i))).flatten

/-- The aggregate demand addressed to one cluster after the final resize:
each partner asks each cluster of its list for `final_nb_samples_p_cluster`
samples. -/
def clusterDemand (cfg : AdvConfig) (F : ℚ) (cl : ℤ) : ℤ :=
  (((List.range cfg.partners.length)).map fun i =>
      ((clustersOf cfg i).count cl : ℤ) * quota cfg F i).sum

/-- `Scenario.split_data_advanced` (scenario.py lines 226-402). -/
def splitDataAdvanced (cfg : AdvConfig) : AdvOutcome :=
  let K := cfg.partners.length
  let nones : List (Option (List ℕ)) := List.replicate K none
  if ¬ coherenceOk cfg then ⟨nones, some .coherenceAssert⟩
  else
    match finalF cfg with
    | .error e => ⟨nones, some e⟩
    | .ok F =>
      if (specSorted cfg).any fun i => pcc cfg i = 0 then ⟨nones, some .zeroDivision⟩
      else if K ≠ 0 ∧ totalNb cfg F = 0 then ⟨nones, some .zeroDivision⟩
      else
        let pop := (List.range K).map fun i => some (partnerTrainIdx cfg F i)
        if K = 0 then ⟨pop, some .valueError⟩
        else if cfg.minibatchCount ≤
            pyMinNat ((List.range K).map fun i => (partnerTrainIdx cfg F i).length) then
          ⟨pop, none⟩
        else ⟨pop, some .minibatchAssert⟩

end AdvancedSplit

section DatasetShorten

/-- The train/validation arrays of a `Dataset` (`mplc/dataset.py`); the
element type is opaque for the engine. -/
structure DsState where
  xTrain : List ℤ
  yTrain : List ℤ
  xVal : List ℤ
  yVal : List ℤ
deriving DecidableEq

/-- numpy fancy indexing `a[idx]` by a list of (in-range) indices. -/
def npIndex (l : List ℤ) (idx : List ℕ) : List ℤ := idx.map (l.getD · 0)

/-- `Dataset.shorten_dataset_proportion` (dataset.py lines 83-106).
`πt`, `πv` are the values of the two fixed-seed `np.random.shuffle` calls
on `np.arange(len(x_train))` and `np.arange(len(x_val))`.  Returns the new
state, or `Except.error ()` for the ValueError raised when the proportion
is negative. -/
def shortenDatasetProportion (p : ℚ) (πt πv : List ℕ) (st : DsState) : Except Unit DsState :=
  if p = 1 then .ok st
  else if p < 0 then .error ()
  else
    let skipT := pyRound ((st.xTrain.length : ℚ) * p)
    let skipV := pyRound ((st.xVal.length : ℚ) * p)
    .ok { xTrain := npIndex st.xTrain (pyTake πt skipT)
          yTrain := npIndex st.yTrain (pyTake πt skipT)
          xVal := npIndex st.xVal (pyTake πv skipV)
          yVal := npIndex st.yVal (pyTake πv skipV) }

end DatasetShorten

section ConcreteConfigurations

/-- A successful advanced run with one specific partner holding two clusters
of unequal sizes 10 and 100 (share 1 of the 110 train samples). -/
def advCfgSpecUnequal : AdvConfig :=
  ⟨List.replicate 10 0 ++ List.replicate 100 1, [0, 1], [⟨2, .specific⟩], [1], 1, fun _ => []⟩

/-- A successful advanced run with two shared partners both drawing the one
pool cluster (size 5) out of 63 train samples, each with share 1/16. -/
def advCfgSharedOverlap : AdvConfig :=
  ⟨List.replicate 5 0 ++ List.replicate 58 1, [0, 1], [⟨1, .shared⟩, ⟨1, .shared⟩],
    [1/16, 1/16], 1, fun _ => [0]⟩

/-- An advanced configuration with an empty train set: the Stage-A
denominator `int(amounts_per_partner[0] * 0)` is zero. -/
def advCfgZeroTotal : AdvConfig := ⟨[], [], [⟨0, .specific⟩], [1], 1, fun _ => []⟩

/-- An advanced configuration whose single partner receives 5 train samples
while `minibatch_count = 20`: the final assert fails. -/
def advCfgMinibatch : AdvConfig := ⟨List.replicate 5 0, [0], [⟨1, .specific⟩], [1], 20, fun _ => []⟩

/-- The simple-mode scenario of the spec: 3 partners, shares
`[0.5, 0.3, 0.2]`, 1000 train samples (and a 100-sample test set). -/
def simpleCfg3 : SimpleConfig := ⟨1000, 100, 3, [1/2, 3/10, 1/5], 1⟩

/-- Two specific partners with 2 and 1 clusters over three labels. -/
def advCfgTwoSpec : AdvConfig :=
  ⟨List.replicate 2 0 ++ List.replicate 2 1 ++ List.replicate 2 2, [0, 1, 2],
    [⟨2, .specific⟩, ⟨1, .specific⟩], [1/2, 1/2], 1, fun _ => []⟩

end ConcreteConfigurations

section BasicLemmas

lemma pyInt_eq_floor {q : ℚ} (h : 0 ≤ q) : pyInt q = ⌊q⌋ := by
  rw [Rat.floor_def]
  exact Int.tdiv_eq_ediv (Rat.num_nonneg.mpr h) (Int.natCast_nonneg q.den)

lemma pyInt_cast_le {q : ℚ} (h : 0 ≤ q) : (pyInt q : ℚ) ≤ q := by
  rw [pyInt_eq_floor h]; exact Int.floor_le q

lemma pyInt_nonneg {q : ℚ} (h : 0 ≤ q) : 0 ≤ pyInt q := by
  rw [pyInt_eq_floor h]; exact Int.floor_nonneg.mpr h

lemma lt_pyInt_add_one {q : ℚ} (h : 0 ≤ q) : q < pyInt q + 1 := by
  rw [pyInt_eq_floor h]; exact_mod_cast Int.lt_floor_add_one q

lemma pyInt_mono {p q : ℚ} (h0 : 0 ≤ p) (h : p ≤ q) : pyInt p ≤ pyInt q := by
  rw [pyInt_eq_floor h0, pyInt_eq_floor (h0.trans h)]
  exact Int.floor_le_floor h

lemma pyInt_intCast (n : ℤ) : pyInt (n : ℚ) = n := by
  unfold pyInt
  rw [Rat.num_intCast, Rat.den_intCast]
  exact Int.tdiv_one n

lemma pyInt_div_natCast {a : ℤ} (ha : 0 ≤ a) (b : ℕ) :
    pyInt ((a : ℚ) / (b : ℚ)) = a / (b : ℤ) := by
  rw [pyInt_eq_floor (by positivity), Rat.floor_intCast_div_natCast]

lemma getD_map_range (f : ℕ → α) (d : α) {j m : ℕ} (h : j < m) :
    ((List.range m).map f).getD j d = f j := by
  rw [List.getD_eq_getElem?_getD, List.getElem?_map, List.getElem?_range h]
  rfl

lemma map_getD_range (l : List α) (d : α) :
    (List.range l.length).map (fun i => l.getD i d) = l := by
  induction l with
  | nil => rfl
  | cons x xs ih =>
      rw [List.length_cons, List.range_succ_eq_map, List.map_cons, List.map_map]
      simp only [List.getD_cons_zero, List.getD_cons_succ, Function.comp_def]
      rw [ih]

lemma count_eq_length_filter_range (ys : List ℤ) (v : ℤ) :
    ((List.range ys.length).filter fun i => ys.getD i 0 = v).length = ys.count v := by
  induction ys with
  | nil => rfl
  | cons y zs ih =>
      rw [List.length_cons, List.range_succ_eq_map, List.filter_cons, List.filter_map]
      have hcomp : ((fun i => decide (((y :: zs).getD i 0) = v)) ∘ Nat.succ)
          = fun i => decide ((zs.getD i 0) = v) := by
        funext i
        simp [List.getD_cons_succ]
      rw [hcomp, List.count_cons]
      simp only [List.getD_cons_zero]
      by_cases hy : y = v
      · simp only [hy, if_pos rfl, beq_self_eq_true, if_true]
        simp [List.getD_eq_getElem?_getD] at ih
        simp [ih]
      · simp only [hy, if_neg hy, beq_iff_eq, Ne.symm hy, if_false]
        simp [List.getD_eq_getElem?_getD] at ih
        simp [ih, hy, Ne.symm hy]

end BasicLemmas

section SliceLemmas

lemma sliceNorm_le (len : ℕ) (i : ℤ) : sliceNorm len i ≤ len := by
  unfold sliceNorm
  split
  · next h =>
      have : (len : ℤ) + i ≤ (len : ℤ) := by omega
      omega
  · exact Nat.min_le_right _ _

lemma sliceNorm_of_nonneg {i : ℤ} (h : 0 ≤ i) (len : ℕ) :
    sliceNorm len i = min i.toNat len := by
  unfold sliceNorm
  split
  · omega
  · rfl

lemma sliceNorm_mono {i j : ℤ} (h0 : 0 ≤ i) (h : i ≤ j) (len : ℕ) :
    sliceNorm len i ≤ sliceNorm len j := by
  rw [sliceNorm_of_nonneg h0, sliceNorm_of_nonneg (h0.trans h)]
  have : i.toNat ≤ j.toNat := Int.toNat_le_toNat h
  omega

lemma sliceNorm_natCast (len n : ℕ) : sliceNorm len (n : ℤ) = min n len := by
  rw [sliceNorm_of_nonneg (Int.natCast_nonneg n), Int.toNat_natCast]

lemma length_pyTake (l : List α) (b : ℤ) :
    (pyTake l b).length = sliceNorm l.length b := by
  rw [pyTake, List.length_take]
  exact Nat.min_eq_left (sliceNorm_le _ _)

lemma pyTake_length_le (l : List α) (b : ℤ) :
    (pyTake l b).length ≤ l.length := by
  rw [length_pyTake]; exact sliceNorm_le _ _

lemma drop_take_append_drop (l : List α) {a b : ℕ} (h : a ≤ b) :
    (l.take b).drop a ++ l.drop b = l.drop a := by
  rw [List.drop_take]
  have hb : b = a + (b - a) := by omega
  calc (l.drop a).take (b - a) ++ l.drop b
      = (l.drop a).take (b - a) ++ (l.drop a).drop (b - a) := by
        rw [List.drop_drop, ← hb]
    _ = l.drop a := List.take_append_drop _ _

lemma npSplitGo_flatten (l : List α) :
    ∀ (idxs : List ℤ) (prev : ℤ), 0 ≤ prev →
      List.Chain' (· ≤ ·) (prev :: idxs) →
      (npSplitGo l prev idxs).flatten = l.drop (sliceNorm l.length prev)
  | [], prev, h0, _ => by
      simp only [npSplitGo, List.flatten, pySlice, List.append_nil]
      rw [sliceNorm_natCast, Nat.min_self, List.take_length]
  | i :: rest, prev, h0, hch => by
      have hpi : prev ≤ i := (List.chain'_cons.mp hch).1
      have hrest : List.Chain' (· ≤ ·) (i :: rest) := (List.chain'_cons.mp hch).2
      simp only [npSplitGo, List.flatten_cons]
      rw [npSplitGo_flatten l rest i (h0.trans hpi) hrest]
      exact drop_take_append_drop l (sliceNorm_mono h0 hpi _)

lemma npSplit_flatten (l : List α) (idxs : List ℤ)
    (h : List.Chain' (· ≤ ·) ((0 : ℤ) :: idxs)) :
    (npSplit l idxs).flatten = l := by
  rw [npSplit, npSplitGo_flatten l idxs 0 le_rfl h]
  have : sliceNorm l.length 0 = 0 := by
    rw [sliceNorm_of_nonneg le_rfl]
    simp
  rw [this, List.drop_zero]

lemma length_npSplitGo (l : List α) :
    ∀ (idxs : List ℤ) (prev : ℤ), (npSplitGo l prev idxs).length = idxs.length + 1
  | [], _ => rfl
  | i :: rest, prev => by
      simp only [npSplitGo, List.length_cons]
      rw [length_npSplitGo l rest i]

lemma length_npSplit (l : List α) (idxs : List ℤ) :
    (npSplit l idxs).length = idxs.length + 1 :=
  length_npSplitGo l idxs 0

end SliceLemmas

section CumsumLemmas

lemma sum_take_succ_getD (a : List ℚ) (j : ℕ) :
    (a.take (j + 1)).sum = (a.take j).sum + a.getD j 0 := by
  rw [List.take_succ, List.sum_append]
  congr 1
  rw [List.getD_eq_getElem?_getD]
  cases h : a[j]? <;> simp [h]

lemma fracLoop_eq_cumsum (a : List ℚ) :
    ∀ n, fracLoop a n = (List.range (n + 1)).map fun j => (a.take (j + 1)).sum
  | 0 => by
      have h1 : List.range 1 = [0] := rfl
      simp only [fracLoop, h1, List.map_cons, List.map_nil]
      rw [sum_take_succ_getD]
      simp
  | n + 1 => by
      simp only [fracLoop]
      rw [fracLoop_eq_cumsum a n]
      rw [getD_map_range _ _ (Nat.lt_succ_self n)]
      rw [← sum_take_succ_getD]
      rw [List.range_succ (n := n + 1), List.map_append, List.map_cons, List.map_nil]

lemma codeSplitFracs_eq_spec (a : List ℚ) (K : ℕ) :
    codeSplitFracs a K = specCumsumFracs a K := by
  unfold codeSplitFracs specCumsumFracs
  split
  · next h =>
      have : K - 1 = 0 := by omega
      rw [this]
      rfl
  · next h =>
      rw [fracLoop_eq_cumsum]
      congr 2
      omega

lemma getD_nonneg_of_forall {a : List ℚ} (h : ∀ x ∈ a, 0 ≤ x) (j : ℕ) :
    0 ≤ a.getD j 0 := by
  rw [List.getD_eq_getElem?_getD]
  cases hj : a[j]? with
  | none => simp
  | some x =>
      obtain ⟨hlt, rfl⟩ := List.getElem?_eq_some.mp hj
      simpa using h _ (List.getElem_mem hlt)

lemma take_sum_nonneg {a : List ℚ} (h : ∀ x ∈ a, 0 ≤ x) (j : ℕ) :
    0 ≤ (a.take j).sum :=
  List.sum_nonneg fun x hx => h x (List.take_subset _ _ hx)

lemma chain'_imp_mem {l : List α} {R S : α → α → Prop} (h : List.Chain' R l)
    (himp : ∀ p ∈ l, ∀ q ∈ l, R p q → S p q) : List.Chain' S l := by
  induction l with
  | nil => exact List.chain'_nil
  | cons x xs ih =>
      cases xs with
      | nil => simp
      | cons y ys =>
          rw [List.chain'_cons] at h ⊢
          refine ⟨himp x (by simp) y (by simp) h.1, ?_⟩
          exact ih h.2 fun p hp q hq hpq => himp p (by simp [hp]) q (by simp [hq]) hpq

lemma specCumsumFracs_chain' {a : List ℚ} (h : ∀ x ∈ a, 0 ≤ x) (K : ℕ) :
    List.Chain' (· ≤ ·) (specCumsumFracs a K) := by
  unfold specCumsumFracs
  rw [List.chain'_map]
  cases hK : K - 1 with
  | zero => simp
  | succ m =>
      rw [List.chain'_range_succ]
      intro j _
      rw [sum_take_succ_getD a (j + 1)]
      have := getD_nonneg_of_forall h (j + 1)
      linarith

lemma splitIndices_chain' {a : List ℚ} (h : ∀ x ∈ a, 0 ≤ x) (K N : ℕ) :
    List.Chain' (· ≤ ·)
      ((0 : ℤ) :: (codeSplitFracs a K).map fun s => pyInt (s * (N : ℚ))) := by
  rw [codeSplitFracs_eq_spec]
  have hmem : ∀ s ∈ specCumsumFracs a K, 0 ≤ s := by
    intro s hs
    unfold specCumsumFracs at hs
    obtain ⟨j, _, rfl⟩ := List.mem_map.mp hs
    exact take_sum_nonneg h (j + 1)
  rw [List.chain'_cons']
  constructor
  · intro z hz
    rcases hm : (specCumsumFracs a K).map fun s => pyInt (s * (N : ℚ)) with _ | ⟨y, ys⟩
    · rw [hm] at hz; simp at hz
    · rw [hm] at hz
      simp only [List.head?_cons, Option.mem_def, Option.some_inj] at hz
      subst hz
      have hy : y ∈ (specCumsumFracs a K).map fun s => pyInt (s * (N : ℚ)) := by
        rw [hm]; exact List.mem_cons_self _ _
      obtain ⟨s, hs, rfl⟩ := List.mem_map.mp hy
      exact pyInt_nonneg (by have := hmem s hs; positivity)
  · rw [List.chain'_map]
    refine chain'_imp_mem (specCumsumFracs_chain' h K) ?_
    intro p hp q _ hpq
    exact pyInt_mono (by have := hmem p hp; positivity) (by nlinarith [hmem p hp])

end CumsumLemmas

section SortLemmas

lemma insertKeyDesc_perm (key : ℕ → ℕ) (x : ℕ) :
    ∀ l : List ℕ, (insertKeyDesc key x l).Perm (x :: l)
  | [] => List.Perm.refl _
  | y :: ys => by
      unfold insertKeyDesc
      split
      · exact List.Perm.refl _
      · exact ((insertKeyDesc_perm key x ys).cons y).trans (List.Perm.swap x y ys)

lemma sortKeyDesc_perm (key : ℕ → ℕ) :
    ∀ l : List ℕ, (sortKeyDesc key l).Perm l
  | [] => List.Perm.refl _
  | x :: xs =>
      (insertKeyDesc_perm key x (sortKeyDesc key xs)).trans
        ((sortKeyDesc_perm key xs).cons x)

lemma mem_specSorted (cfg : AdvConfig) {i : ℕ} :
    i ∈ specSorted cfg ↔ i ∈ specIds cfg :=
  (sortKeyDesc_perm (pcc cfg) (specIds cfg)).mem_iff

lemma mem_sharedSorted (cfg : AdvConfig) {i : ℕ} :
    i ∈ sharedSorted cfg ↔ i ∈ sharedIds cfg :=
  (sortKeyDesc_perm (pcc cfg) (sharedIds cfg)).mem_iff

lemma specSorted_nodup (cfg : AdvConfig) : (specSorted cfg).Nodup :=
  ((sortKeyDesc_perm (pcc cfg) (specIds cfg)).nodup_iff).mpr
    (List.Nodup.filter _ (List.nodup_range _))

end SortLemmas

section StageFoldLemmas

lemma stageAFold_ok_le (cfg : AdvConfig) :
    ∀ {l : List ℕ} {acc r : ℚ}, stageAFold cfg l acc = .ok r →
      r ≤ acc ∧ ∀ i ∈ l, r ≤ specRatio cfg i := by
  intro l
  induction l with
  | nil =>
      intro acc r h
      simp only [stageAFold, Except.ok.injEq] at h
      subst h
      exact ⟨le_rfl, by simp⟩
  | cons i rest ih =>
      intro acc r h
      simp only [stageAFold] at h
      split at h
      · cases h
      · obtain ⟨h1, h2⟩ := ih h
        refine ⟨h1.trans (min_le_left _ _), ?_⟩
        intro j hj
        rcases List.mem_cons.mp hj with rfl | hj'
        · exact h1.trans (min_le_right _ _)
        · exact h2 j hj'

lemma stageAFold_ok_nonneg (cfg : AdvConfig) :
    ∀ {l : List ℕ} {acc r : ℚ}, stageAFold cfg l acc = .ok r →
      0 ≤ acc → (∀ i ∈ l, 0 ≤ specRatio cfg i) → 0 ≤ r := by
  intro l
  induction l with
  | nil =>
      intro acc r h hacc _
      simp only [stageAFold, Except.ok.injEq] at h
      subst h; exact hacc
  | cons i rest ih =>
      intro acc r h hacc hrat
      simp only [stageAFold] at h
      split at h
      · cases h
      · exact ih h (le_min hacc (hrat i (by simp))) fun j hj => hrat j (by simp [hj])

lemma stageAFold_ok_init_ne (cfg : AdvConfig) :
    ∀ {l : List ℕ} {acc r : ℚ}, stageAFold cfg l acc = .ok r →
      ∀ i ∈ l, countInitial cfg i ≠ 0 := by
  intro l
  induction l with
  | nil => intro acc r _ i hi; cases hi
  | cons i rest ih =>
      intro acc r h j hj
      simp only [stageAFold] at h
      split at h
      · cases h
      · next hne =>
          rcases List.mem_cons.mp hj with rfl | hj'
          · exact hne
          · exact ih h j hj'

lemma stageAFold_error_of_exists (cfg : AdvConfig) :
    ∀ {l : List ℕ} (acc : ℚ), (∃ i ∈ l, countInitial cfg i = 0) →
      stageAFold cfg l acc = .error .zeroDivision := by
  intro l
  induction l with
  | nil => intro acc h; simp at h
  | cons i rest ih =>
      intro acc h
      simp only [stageAFold]
      split
      · rfl
      · next hne =>
          obtain ⟨j, hj, hz⟩ := h
          rcases List.mem_cons.mp hj with rfl | hj'
          · exact absurd hz hne
          · exact ih _ ⟨j, hj', hz⟩

lemma stageBFold_ok_le (cfg : AdvConfig) (A : ℚ) :
    ∀ {l : List ℤ} {acc r : ℚ}, stageBFold cfg A l acc = .ok r →
      r ≤ acc ∧ ∀ cl ∈ l,
        r ≤ (countPerCluster cfg cl : ℚ) / (neededPerCluster cfg A cl : ℚ) := by
  intro l
  induction l with
  | nil =>
      intro acc r h
      simp only [stageBFold, Except.ok.injEq] at h
      subst h
      exact ⟨le_rfl, by simp⟩
  | cons cl rest ih =>
      intro acc r h
      simp only [stageBFold] at h
      split at h
      · cases h
      · obtain ⟨h1, h2⟩ := ih h
        refine ⟨h1.trans (min_le_left _ _), ?_⟩
        intro c hc
        rcases List.mem_cons.mp hc with rfl | hc'
        · exact h1.trans (min_le_right _ _)
        · exact h2 c hc'

lemma stageBFold_ok_nonneg (cfg : AdvConfig) (A : ℚ) :
    ∀ {l : List ℤ} {acc r : ℚ}, stageBFold cfg A l acc = .ok r →
      0 ≤ acc →
      (∀ cl ∈ l, 0 ≤ (countPerCluster cfg cl : ℚ) / (neededPerCluster cfg A cl : ℚ)) →
      0 ≤ r := by
  intro l
  induction l with
  | nil =>
      intro acc r h hacc _
      simp only [stageBFold, Except.ok.injEq] at h
      subst h; exact hacc
  | cons cl rest ih =>
      intro acc r h hacc hrat
      simp only [stageBFold] at h
      split at h
      · cases h
      · exact ih h (le_min hacc (hrat cl (by simp))) fun c hc => hrat c (by simp [hc])

lemma stageBFold_ok_needed_ne (cfg : AdvConfig) (A : ℚ) :
    ∀ {l : List ℤ} {acc r : ℚ}, stageBFold cfg A l acc = .ok r →
      ∀ cl ∈ l, neededPerCluster cfg A cl ≠ 0 := by
  intro l
  induction l with
  | nil => intro acc r _ cl hcl; cases hcl
  | cons c rest ih =>
      intro acc r h cl hcl
      simp only [stageBFold] at h
      split at h
      · cases h
      · next hne =>
          rcases List.mem_cons.mp hcl with rfl | hcl'
          · exact hne
          · exact ih h cl hcl'

lemma stageBFold_error_of_exists (cfg : AdvConfig) (A : ℚ) :
    ∀ {l : List ℤ} (acc : ℚ), (∃ cl ∈ l, neededPerCluster cfg A cl = 0) →
      stageBFold cfg A l acc = .error .zeroDivision := by
  intro l
  induction l with
  | nil => intro acc h; simp at h
  | cons c rest ih =>
      intro acc h
      simp only [stageBFold]
      split
      · rfl
      · next hne =>
          obtain ⟨cl, hcl, hz⟩ := h
          rcases List.mem_cons.mp hcl with rfl | hcl'
          · exact absurd hz hne
          · exact ih _ ⟨cl, hcl', hz⟩

lemma stageBPartnersOk_error_of_exists (cfg : AdvConfig) :
    ∀ {l : List ℕ}, (∃ i ∈ l, pcc cfg i = 0) →
      stageBPartnersOk cfg l = .error .zeroDivision := by
  intro l
  induction l with
  | nil => intro h; simp at h
  | cons i rest ih =>
      intro h
      simp only [stageBPartnersOk]
      split
      · rfl
      · next hne =>
          obtain ⟨j, hj, hz⟩ := h
          rcases List.mem_cons.mp hj with rfl | hj'
          · exact absurd hz hne
          · exact ih ⟨j, hj', hz⟩

end StageFoldLemmas

section ResizeBounds

lemma countInitial_nonneg (cfg : AdvConfig) (hamt : ∀ x ∈ cfg.amounts, 0 ≤ x) (i : ℕ) :
    0 ≤ countInitial cfg i :=
  pyInt_nonneg (mul_nonneg (getD_nonneg_of_forall hamt i) (Nat.cast_nonneg _))

lemma specRatio_nonneg (cfg : AdvConfig) (hamt : ∀ x ∈ cfg.amounts, 0 ≤ x)
    {i : ℕ} (hne : countInitial cfg i ≠ 0) : 0 ≤ specRatio cfg i := by
  unfold specRatio
  have h2 : (0 : ℤ) < countInitial cfg i :=
    lt_of_le_of_ne (countInitial_nonneg cfg hamt i) (Ne.symm hne)
  have h2q : (0 : ℚ) ≤ (countInitial cfg i : ℚ) := by exact_mod_cast h2.le
  exact div_nonneg (Nat.cast_nonneg _) h2q

lemma resizeA_bounds (cfg : AdvConfig) {A : ℚ} (h : resizeA cfg = .ok A)
    (hamt : ∀ x ∈ cfg.amounts, 0 ≤ x) : 0 ≤ A ∧ A ≤ 1 := by
  refine ⟨?_, (stageAFold_ok_le cfg h).1⟩
  exact stageAFold_ok_nonneg cfg h zero_le_one fun i hi =>
    specRatio_nonneg cfg hamt (stageAFold_ok_init_ne cfg h i hi)

lemma amountResized_nonneg (cfg : AdvConfig) {A : ℚ} (hA : 0 ≤ A)
    (hamt : ∀ x ∈ cfg.amounts, 0 ≤ x) (i : ℕ) : 0 ≤ amountResized cfg A i :=
  pyInt_nonneg (mul_nonneg (mul_nonneg (getD_nonneg_of_forall hamt i) (Nat.cast_nonneg _)) hA)

lemma perClusterResized_nonneg (cfg : AdvConfig) {A : ℚ} (hA : 0 ≤ A)
    (hamt : ∀ x ∈ cfg.amounts, 0 ≤ x) (i : ℕ) : 0 ≤ perClusterResized cfg A i := by
  unfold perClusterResized
  refine pyInt_nonneg (div_nonneg ?_ (Nat.cast_nonneg _))
  exact_mod_cast amountResized_nonneg cfg hA hamt i

lemma neededPerCluster_nonneg (cfg : AdvConfig) {A : ℚ} (hA : 0 ≤ A)
    (hamt : ∀ x ∈ cfg.amounts, 0 ≤ x) (cl : ℤ) : 0 ≤ neededPerCluster cfg A cl := by
  unfold neededPerCluster
  refine List.sum_nonneg ?_
  intro x hx
  obtain ⟨i, _, rfl⟩ := List.mem_map.mp hx
  exact mul_nonneg (Int.natCast_nonneg _) (perClusterResized_nonneg cfg hA hamt i)

lemma stageB_bounds (cfg : AdvConfig) {A B : ℚ} (h : stageB cfg A = .ok B)
    (hA : 0 ≤ A) (hamt : ∀ x ∈ cfg.amounts, 0 ≤ x) : 0 ≤ B ∧ B ≤ 1 := by
  unfold stageB at h
  rcases hx : stageBPartnersOk cfg (sharedSorted cfg) with e | u
  · rw [hx] at h; cases h
  · rw [hx] at h
    refine ⟨?_, (stageBFold_ok_le cfg A h).1⟩
    refine stageBFold_ok_nonneg cfg A h zero_le_one fun cl hcl => ?_
    have hne := stageBFold_ok_needed_ne cfg A h cl hcl
    have hpos : (0 : ℤ) < neededPerCluster cfg A cl :=
      lt_of_le_of_ne (neededPerCluster_nonneg cfg hA hamt cl) (Ne.symm hne)
    have : (0 : ℚ) ≤ (neededPerCluster cfg A cl : ℚ) := by exact_mod_cast hpos.le
    exact div_nonneg (Nat.cast_nonneg _) this

lemma finalF_ok_parts {cfg : AdvConfig} {F : ℚ} (h : finalF cfg = .ok F) :
    ∃ A B, resizeA cfg = .ok A ∧ stageB cfg A = .ok B ∧ F = A * B := by
  unfold finalF at h
  rcases hA : resizeA cfg with e | A <;> rw [hA] at h
  · cases h
  · dsimp only at h
    rcases hB : stageB cfg A with e | B <;> rw [hB] at h
    · cases h
    · dsimp only at h
      cases h
      exact ⟨A, B, rfl, hB, rfl⟩

lemma finalF_bounds (cfg : AdvConfig) {F : ℚ} (h : finalF cfg = .ok F)
    (hamt : ∀ x ∈ cfg.amounts, 0 ≤ x) : 0 ≤ F ∧ F ≤ 1 := by
  obtain ⟨A, B, hA, hB, rfl⟩ := finalF_ok_parts h
  obtain ⟨hA0, hA1⟩ := resizeA_bounds cfg hA hamt
  obtain ⟨hB0, hB1⟩ := stageB_bounds cfg hB hA0 hamt
  exact ⟨mul_nonneg hA0 hB0, mul_le_one₀ hA1 hB0 hB1⟩

lemma finalNb_nonneg (cfg : AdvConfig) {F : ℚ} (hF : 0 ≤ F)
    (hamt : ∀ x ∈ cfg.amounts, 0 ≤ x) (i : ℕ) : 0 ≤ finalNb cfg F i :=
  pyInt_nonneg (mul_nonneg (mul_nonneg (getD_nonneg_of_forall hamt i) (Nat.cast_nonneg _)) hF)

end ResizeBounds

section ClaimC5

/-- C5: for every valid advanced-mode configuration (requested shares
summing to 1, coherence precondition satisfied, pipeline reaching the final
allocation), the sum over all partners of the final allocated sample counts
`final_nb_samples` is at most the total number of train samples. -/
theorem C5_total_allocation_le_total_train (cfg : AdvConfig)
    (hlen : cfg.amounts.length = cfg.partners.length)
    (hsum : cfg.amounts.sum = 1)
    (hamt : ∀ x ∈ cfg.amounts, 0 ≤ x)
    (hcoh : coherenceOk cfg)
    {F : ℚ} (hF : finalF cfg = .ok F) :
    ((List.range cfg.partners.length).map (finalNb cfg F)).sum ≤ (nTrain cfg : ℤ) := by
  obtain ⟨hF0, hF1⟩ := finalF_bounds cfg hF hamt
  have hcast : (((List.range cfg.partners.length).map (finalNb cfg F)).sum : ℚ)
      = (((List.range cfg.partners.length).map (finalNb cfg F)).map (fun z : ℤ => (z : ℚ))).sum := by
    have h0 := map_list_sum (Int.castRingHom ℚ)
      ((List.range cfg.partners.length).map (finalNb cfg F))
    simpa using h0
  have hle : (((List.range cfg.partners.length).map (finalNb cfg F)).map (fun z : ℤ => (z : ℚ))).sum
      ≤ ((List.range cfg.partners.length).map
          fun i => cfg.amounts.getD i 0 * ((nTrain cfg : ℚ) * F)).sum := by
    rw [List.map_map]
    refine List.sum_le_sum ?_
    intro i _
    have := pyInt_cast_le (q := cfg.amounts.getD i 0 * (nTrain cfg : ℚ) * F)
      (mul_nonneg (mul_nonneg (getD_nonneg_of_forall hamt i) (Nat.cast_nonneg _)) hF0)
    calc ((finalNb cfg F i : ℤ) : ℚ) ≤ cfg.amounts.getD i 0 * (nTrain cfg : ℚ) * F := this
      _ = cfg.amounts.getD i 0 * ((nTrain cfg : ℚ) * F) := by ring
  have hsum2 : ((List.range cfg.partners.length).map
      fun i => cfg.amounts.getD i 0 * ((nTrain cfg : ℚ) * F)).sum
      = ((nTrain cfg : ℚ) * F) := by
    rw [List.sum_map_mul_right]
    have : (List.range cfg.partners.length).map (fun i => cfg.amounts.getD i 0)
        = cfg.amounts := by
      rw [← hlen]
      exact map_getD_range cfg.amounts 0
    rw [this, hsum, one_mul]
  have hNF : (nTrain cfg : ℚ) * F ≤ (nTrain cfg : ℚ) := by
    calc (nTrain cfg : ℚ) * F ≤ (nTrain cfg : ℚ) * 1 :=
      mul_le_mul_of_nonneg_left hF1 (Nat.cast_nonneg _)
    _ = (nTrain cfg : ℚ) := mul_one _
  have : (((List.range cfg.partners.length).map (finalNb cfg F)).sum : ℚ) ≤ (nTrain cfg : ℚ) := by
    rw [hcast]
    exact hle.trans (le_of_eq hsum2) |>.trans hNF
  exact_mod_cast this

unseal Rat.mul Rat.inv Rat.add Rat.sub in
/-- Witness for C5 at a concrete configuration: one specific partner with
share 1 over 5 train samples; the allocated total is 5 ≤ 5. -/
theorem C5_witness :
    ((List.range advCfgMinibatch.partners.length).map (finalNb advCfgMinibatch 1)).sum
      ≤ (nTrain advCfgMinibatch : ℤ) :=
  C5_total_allocation_le_total_train advCfgMinibatch (by decide) (by decide)
    (by decide) (by decide) (by decide)

section ClaimC1

lemma length_clusterIdx (cfg : AdvConfig) (l : ℤ) :
    (clusterIdx cfg l).length = countPerCluster cfg l :=
  count_eq_length_filter_range cfg.yTrain l

lemma finalNb_le_countAvailable (cfg : AdvConfig) {A B : ℚ}
    (hA : resizeA cfg = .ok A) (hB : stageB cfg A = .ok B)
    (hamt : ∀ x ∈ cfg.amounts, 0 ≤ x) {i : ℕ} (hi : i ∈ specSorted cfg) :
    finalNb cfg (A * B) i ≤ (countAvailable cfg i : ℤ) := by
  have ha : 0 ≤ cfg.amounts.getD i 0 := getD_nonneg_of_forall hamt i
  have hN : (0 : ℚ) ≤ (nTrain cfg : ℚ) := Nat.cast_nonneg _
  have hne : countInitial cfg i ≠ 0 := stageAFold_ok_init_ne cfg hA i hi
  have hinit0 : (0 : ℤ) < countInitial cfg i :=
    lt_of_le_of_ne (countInitial_nonneg cfg hamt i) (Ne.symm hne)
  have hAle : A ≤ specRatio cfg i := (stageAFold_ok_le cfg hA).2 i hi
  obtain ⟨hA0, hA1⟩ := resizeA_bounds cfg hA hamt
  obtain ⟨hB0, hB1⟩ := stageB_bounds cfg hB hA0 hamt
  have havail0 : (0 : ℤ) ≤ (countAvailable cfg i : ℤ) := Int.natCast_nonneg _
  have harg0 : 0 ≤ cfg.amounts.getD i 0 * (nTrain cfg : ℚ) := mul_nonneg ha hN
  have hab1 : A * B ≤ 1 := mul_le_one₀ hA1 hB0 hB1
  by_cases hcase : countInitial cfg i ≤ (countAvailable cfg i : ℤ)
  · have h1 : cfg.amounts.getD i 0 * (nTrain cfg : ℚ) * (A * B)
        ≤ cfg.amounts.getD i 0 * (nTrain cfg : ℚ) := by
      nlinarith [mul_le_mul_of_nonneg_left hab1 harg0]
    have h2 : pyInt (cfg.amounts.getD i 0 * (nTrain cfg : ℚ) * (A * B))
        ≤ pyInt (cfg.amounts.getD i 0 * (nTrain cfg : ℚ)) :=
      pyInt_mono (by positivity) h1
    exact h2.trans hcase
  · push_neg at hcase
    have hinitq : (1 : ℚ) ≤ (countInitial cfg i : ℚ) := by exact_mod_cast hinit0
    have hcaseq : (countAvailable cfg i : ℚ) ≤ (countInitial cfg i : ℚ) - 1 := by
      have : (countAvailable cfg i : ℤ) ≤ countInitial cfg i - 1 := by omega
      exact_mod_cast this
    have hx : cfg.amounts.getD i 0 * (nTrain cfg : ℚ)
        < (countInitial cfg i : ℚ) + 1 := lt_pyInt_add_one harg0
    have hAr : A * (countInitial cfg i : ℚ) ≤ (countAvailable cfg i : ℚ) := by
      have hpos : (0 : ℚ) < (countInitial cfg i : ℚ) := by exact_mod_cast hinit0
      have : A ≤ (countAvailable cfg i : ℚ) / (countInitial cfg i : ℚ) := hAle
      calc A * (countInitial cfg i : ℚ)
          ≤ (countAvailable cfg i : ℚ) / (countInitial cfg i : ℚ) * (countInitial cfg i : ℚ) :=
            mul_le_mul_of_nonneg_right this hpos.le
        _ = (countAvailable cfg i : ℚ) := div_mul_cancel₀ _ hpos.ne'
    have hAlt1 : A < 1 := by
      by_contra hge
      push_neg at hge
      have hpos : (0 : ℚ) < (countInitial cfg i : ℚ) := by exact_mod_cast hinit0
      have : (countInitial cfg i : ℚ) ≤ A * (countInitial cfg i : ℚ) :=
        le_mul_of_one_le_left hpos.le hge
      linarith
    have hBle : cfg.amounts.getD i 0 * (nTrain cfg : ℚ) * (A * B)
        ≤ cfg.amounts.getD i 0 * (nTrain cfg : ℚ) * A := by
      nlinarith [mul_nonneg (mul_nonneg harg0 hA0) (sub_nonneg.mpr hB1)]
    have hANle : cfg.amounts.getD i 0 * (nTrain cfg : ℚ) * A
        ≤ ((countInitial cfg i : ℚ) + 1) * A := mul_le_mul_of_nonneg_right hx.le hA0
    have hlt : cfg.amounts.getD i 0 * (nTrain cfg : ℚ) * (A * B)
        < (countAvailable cfg i : ℚ) + 1 := by nlinarith [hBle, hANle, hAr, hAlt1]
    have hfloor : finalNb cfg (A * B) i < (countAvailable cfg i : ℤ) + 1 := by
      unfold finalNb
      rw [pyInt_eq_floor (by positivity)]
      refine Int.floor_lt.mpr ?_
      push_cast
      exact hlt
    omega

/-- C1 (amended): after the final resize factor A x B, each specific
partner's final allocated sample count is at most the total size of its
assigned clusters, and the samples actually extracted from any one cluster
by any one partner never exceed that cluster's size (the slice truncates);
but the per-cluster demand `final_nb_samples / cluster_count` can exceed an
individual cluster's size (see the counterexample). -/
theorem C1_per_partner_allocation_bounds (cfg : AdvConfig) {F : ℚ}
    (hF : finalF cfg = .ok F) (hamt : ∀ x ∈ cfg.amounts, 0 ≤ x) :
    (∀ i ∈ specIds cfg, finalNb cfg F i ≤ (countAvailable cfg i : ℤ))
    ∧ ∀ i : ℕ, ∀ cl ∈ clustersOf cfg i,
        (pyTake (clusterIdx cfg cl) (quota cfg F i)).length ≤ countPerCluster cfg cl := by
  obtain ⟨A, B, hA, hB, rfl⟩ := finalF_ok_parts hF
  constructor
  · intro i hi
    exact finalNb_le_countAvailable cfg hA hB hamt ((mem_specSorted cfg).mpr hi)
  · intro i cl _
    calc (pyTake (clusterIdx cfg cl) (quota cfg (A * B) i)).length
        ≤ (clusterIdx cfg cl).length := pyTake_length_le _ _
      _ = countPerCluster cfg cl := length_clusterIdx cfg cl

unseal Rat.mul Rat.inv Rat.add Rat.sub in
/-- C1 counterexample: two successful advanced runs on which the claim as
stated fails.  First, a specific partner with clusters of sizes 10 and 100
(unequal) and share 1 of 110 samples: the final factor is 1 and the
per-cluster demand is 55 > 10, so the small cluster is asked for more
samples than it holds.  Second, two shared partners both drawing the same
pool cluster of size 5: each takes the first 3 samples of the cluster, so
the number of samples taken from the cluster summed over the partners
drawing from it is 6 > 5. -/
theorem C1_counterexample :
    ((splitDataAdvanced advCfgSpecUnequal).err = none
      ∧ finalF advCfgSpecUnequal = .ok 1
      ∧ pkind advCfgSpecUnequal 0 = .specific
      ∧ clustersOf advCfgSpecUnequal 0 = [0, 1]
      ∧ countPerCluster advCfgSpecUnequal 0 = 10
      ∧ clusterDemand advCfgSpecUnequal 1 0 = 55
      ∧ ¬ clusterDemand advCfgSpecUnequal 1 0 ≤ (countPerCluster advCfgSpecUnequal 0 : ℤ))
    ∧ ((splitDataAdvanced advCfgSharedOverlap).err = none
      ∧ finalF advCfgSharedOverlap = .ok (5 / 6)
      ∧ countPerCluster advCfgSharedOverlap 0 = 5
      ∧ ((List.range 2).map fun i =>
          (pyTake (clusterIdx advCfgSharedOverlap 0)
            (quota advCfgSharedOverlap (5 / 6) i)).length).sum = 6) := by
  decide

unseal Rat.mul Rat.inv Rat.add Rat.sub in
/-- Witness for the amended C1 at the first counterexample configuration. -/
theorem C1_witness :
    (∀ i ∈ specIds advCfgSpecUnequal,
        finalNb advCfgSpecUnequal 1 i ≤ (countAvailable advCfgSpecUnequal i : ℤ))
    ∧ ∀ i : ℕ, ∀ cl ∈ clustersOf advCfgSpecUnequal i,
        (pyTake (clusterIdx advCfgSpecUnequal cl) (quota advCfgSpecUnequal 1 i)).length
          ≤ countPerCluster advCfgSpecUnequal cl :=
  C1_per_partner_allocation_bounds advCfgSpecUnequal (by decide) (by decide)

end ClaimC1

section ClaimC2

lemma stageAFold_error_kind (cfg : AdvConfig) :
    ∀ {l : List ℕ} {acc : ℚ} {e : ErrKind}, stageAFold cfg l acc = .error e →
      e = .zeroDivision := by
  intro l
  induction l with
  | nil => intro acc e h; cases h
  | cons i rest ih =>
      intro acc e h
      simp only [stageAFold] at h
      split at h
      · cases h; rfl
      · exact ih h

lemma stageBFold_error_kind (cfg : AdvConfig) (A : ℚ) :
    ∀ {l : List ℤ} {acc : ℚ} {e : ErrKind}, stageBFold cfg A l acc = .error e →
      e = .zeroDivision := by
  intro l
  induction l with
  | nil => intro acc e h; cases h
  | cons cl rest ih =>
      intro acc e h
      simp only [stageBFold] at h
      split at h
      · cases h; rfl
      · exact ih h

lemma stageBPartnersOk_error_kind (cfg : AdvConfig) :
    ∀ {l : List ℕ} {e : ErrKind}, stageBPartnersOk cfg l = .error e →
      e = .zeroDivision := by
  intro l
  induction l with
  | nil => intro e h; cases h
  | cons i rest ih =>
      intro e h
      simp only [stageBPartnersOk] at h
      split at h
      · cases h; rfl
      · exact ih h

lemma stageB_error_kind (cfg : AdvConfig) (A : ℚ) {e : ErrKind}
    (h : stageB cfg A = .error e) : e = .zeroDivision := by
  unfold stageB at h
  rcases hx : stageBPartnersOk cfg (sharedSorted cfg) with e' | u <;> rw [hx] at h
  · cases h; exact stageBPartnersOk_error_kind cfg hx
  · exact stageBFold_error_kind cfg A h

lemma finalF_error_kind (cfg : AdvConfig) {e : ErrKind}
    (h : finalF cfg = .error e) : e = .zeroDivision := by
  unfold finalF at h
  rcases hA : resizeA cfg with e' | A <;> rw [hA] at h
  · cases h; exact stageAFold_error_kind cfg hA
  · dsimp only at h
    rcases hB : stageB cfg A with e' | B <;> rw [hB] at h
    · cases h; exact stageB_error_kind cfg A hB
    · cases h

lemma splitDataAdvanced_err_of_finalF_error (cfg : AdvConfig) (hcoh : coherenceOk cfg)
    {e : ErrKind} (h : finalF cfg = .error e) :
    (splitDataAdvanced cfg).err = some e := by
  unfold splitDataAdvanced
  rw [if_neg (not_not_intro hcoh), h]

lemma splitDataAdvanced_no_allocation_guard (cfg : AdvConfig) :
    (splitDataAdvanced cfg).err ≠ some ErrKind.allocationError := by
  unfold splitDataAdvanced
  split
  · simp
  · split
    · next e heq =>
        have := finalF_error_kind cfg heq
        subst this
        simp
    · dsimp only
      split
      · simp
      · split
        · simp
        · split
          · simp
          · split <;> simp

/-- C2 (amended): the advanced split does fail whenever the total number of
train samples is zero or a Stage-A / Stage-B denominator is zero, but the
failure is an uncaught ZeroDivisionError from the unguarded divisions (and,
for a zero total with surviving stages, from the relative-volume division),
not an explicit allocation-error guard; no run can produce an explicit
allocation error, because no such guard exists in the code. -/
theorem C2_zero_denominators_raise_zero_division (cfg : AdvConfig) (hcoh : coherenceOk cfg) :
    (nTrain cfg = 0 → cfg.partners ≠ [] →
      (splitDataAdvanced cfg).err = some ErrKind.zeroDivision)
    ∧ ((∃ i ∈ specSorted cfg, countInitial cfg i = 0) →
        (splitDataAdvanced cfg).err = some ErrKind.zeroDivision)
    ∧ (∀ A, resizeA cfg = .ok A →
        ((∃ i ∈ sharedSorted cfg, pcc cfg i = 0)
          ∨ (∃ cl ∈ sharedClusters cfg, neededPerCluster cfg A cl = 0)) →
        (splitDataAdvanced cfg).err = some ErrKind.zeroDivision)
    ∧ (splitDataAdvanced cfg).err ≠ some ErrKind.allocationError := by
  have hspecA : ∀ (h : ∃ i ∈ specSorted cfg, countInitial cfg i = 0),
      (splitDataAdvanced cfg).err = some ErrKind.zeroDivision := by
    intro h
    have hA : resizeA cfg = .error .zeroDivision := stageAFold_error_of_exists cfg 1 h
    have hF : finalF cfg = .error .zeroDivision := by
      unfold finalF
      rw [hA]
    exact splitDataAdvanced_err_of_finalF_error cfg hcoh hF
  have hstageB : ∀ A, resizeA cfg = .ok A →
      ((∃ i ∈ sharedSorted cfg, pcc cfg i = 0)
        ∨ (∃ cl ∈ sharedClusters cfg, neededPerCluster cfg A cl = 0)) →
      (splitDataAdvanced cfg).err = some ErrKind.zeroDivision := by
    intro A hA hor
    have hB : stageB cfg A = .error .zeroDivision := by
      unfold stageB
      rcases hor with hcc | hneed
      · rw [stageBPartnersOk_error_of_exists cfg hcc]
      · rcases hx : stageBPartnersOk cfg (sharedSorted cfg) with e' | u
        · have hk := stageBPartnersOk_error_kind cfg hx
          subst hk
          rfl
        · exact stageBFold_error_of_exists cfg A 1 hneed
    have hF : finalF cfg = .error .zeroDivision := by
      unfold finalF
      rw [hA]
      dsimp only
      rw [hB]
    exact splitDataAdvanced_err_of_finalF_error cfg hcoh hF
  refine ⟨?_, hspecA, hstageB, splitDataAdvanced_no_allocation_guard cfg⟩
  intro hN hK
  rcases hA : resizeA cfg with e | A
  · have := stageAFold_error_kind cfg hA
    subst this
    have hF : finalF cfg = .error .zeroDivision := by unfold finalF; rw [hA]
    exact splitDataAdvanced_err_of_finalF_error cfg hcoh hF
  · rcases hB : stageB cfg A with e | B
    · have := stageB_error_kind cfg A hB
      subst this
      have hF : finalF cfg = .error .zeroDivision := by
        unfold finalF; rw [hA]; dsimp only; rw [hB]
      exact splitDataAdvanced_err_of_finalF_error cfg hcoh hF
    · have hF : finalF cfg = .ok (A * B) := by
        unfold finalF; rw [hA]; dsimp only; rw [hB]
      have hzero : ∀ i, finalNb cfg (A * B) i = 0 := by
        intro i
        unfold finalNb
        rw [hN]
        have harg : cfg.amounts.getD i 0 * ((0 : ℕ) : ℚ) * (A * B) = ((0 : ℤ) : ℚ) := by
          push_cast
          ring
        rw [harg, pyInt_intCast 0]
      have htot : totalNb cfg (A * B) = 0 := by
        unfold totalNb
        rw [List.sum_eq_zero]
        intro x hx
        obtain ⟨i, _, rfl⟩ := List.mem_map.mp hx
        exact hzero i
      unfold splitDataAdvanced
      rw [if_neg (not_not_intro hcoh), hF]
      dsimp only
      split
      · rfl
      · rw [if_pos ⟨fun habs => hK (List.eq_nil_of_length_eq_zero habs), htot⟩]

unseal Rat.mul Rat.inv Rat.add Rat.sub in
/-- C2 counterexample: with an empty train set and one specific partner the
run fails, but with a ZeroDivisionError, not with the explicit
allocation-error guard the claim describes. -/
theorem C2_counterexample :
    (splitDataAdvanced advCfgZeroTotal).err = some ErrKind.zeroDivision
    ∧ (splitDataAdvanced advCfgZeroTotal).err ≠ some ErrKind.allocationError := by
  decide

unseal Rat.mul Rat.inv Rat.add Rat.sub in
/-- Witness for the amended C2 at the zero-total configuration. -/
theorem C2_witness :
    (splitDataAdvanced advCfgZeroTotal).err = some ErrKind.zeroDivision :=
  (C2_zero_denominators_raise_zero_division advCfgZeroTotal (by decide)).1
    (by decide) (by decide)

end ClaimC2

section ClaimC3

lemma splitDataAdvanced_cases (cfg : AdvConfig) :
    (∀ o ∈ (splitDataAdvanced cfg).populated, o = none)
    ∨ (((splitDataAdvanced cfg).err = none
        ∨ (splitDataAdvanced cfg).err = some ErrKind.minibatchAssert
        ∨ (splitDataAdvanced cfg).err = some ErrKind.valueError)
      ∧ ∀ o ∈ (splitDataAdvanced cfg).populated, o.isSome) := by
  have hsome : ∀ (F : ℚ) (o : Option (List ℕ)),
      o ∈ (List.range cfg.partners.length).map (fun i => some (partnerTrainIdx cfg F i)) →
        o.isSome := by
    intro F o ho
    obtain ⟨i, _, rfl⟩ := List.mem_map.mp ho
    rfl
  unfold splitDataAdvanced
  dsimp only
  split
  · exact Or.inl fun o ho => List.eq_of_mem_replicate ho
  · split
    · exact Or.inl fun o ho => List.eq_of_mem_replicate ho
    · split
      · exact Or.inl fun o ho => List.eq_of_mem_replicate ho
      · split
        · exact Or.inl fun o ho => List.eq_of_mem_replicate ho
        · split
          · exact Or.inr ⟨Or.inr (Or.inr rfl), hsome _⟩
          · split
            · exact Or.inr ⟨Or.inl rfl, hsome _⟩
            · exact Or.inr ⟨Or.inr (Or.inl rfl), hsome _⟩

lemma splitData_cases (cfg : SimpleConfig) (mode : SimpleMode) (π : List ℕ) :
    (∀ o ∈ (splitData cfg mode π).populated, o = none)
    ∨ (((splitData cfg mode π).err = none
        ∨ (splitData cfg mode π).err = some SimpleErr.minibatchAssert)
      ∧ ∀ o ∈ (splitData cfg mode π).populated, o.isSome) := by
  have hsome : ∀ (tIdx : List ℕ) (o : Option (List ℕ × List ℕ)),
      o ∈ ((trainPieces cfg tIdx).zip (testPieces cfg)).map some → o.isSome := by
    intro tIdx o ho
    obtain ⟨p, _, rfl⟩ := List.mem_map.mp ho
    rfl
  have hpop : ∀ tIdx : List ℕ,
      (∀ o ∈ (simplePopulate cfg tIdx).populated, o = none)
      ∨ (((simplePopulate cfg tIdx).err = none
          ∨ (simplePopulate cfg tIdx).err = some SimpleErr.minibatchAssert)
        ∧ ∀ o ∈ (simplePopulate cfg tIdx).populated, o.isSome) := by
    intro tIdx
    unfold simplePopulate
    dsimp only
    split
    · exact Or.inr ⟨Or.inl rfl, hsome tIdx⟩
    · exact Or.inr ⟨Or.inr rfl, hsome tIdx⟩
  unfold splitData
  dsimp only
  split
  · exact Or.inl fun o ho => List.eq_of_mem_replicate ho
  · split
    · exact Or.inl fun o ho => List.eq_of_mem_replicate ho
    · split
      · exact Or.inl fun o ho => List.eq_of_mem_replicate ho
      · split
        · exact Or.inl fun o ho => List.eq_of_mem_replicate ho
        · exact hpop π
        · exact hpop (List.range cfg.nTrain)

/-- C3 (amended): in both split paths every error raised before partner
population leaves every partner unpopulated, and population is
all-or-nothing; but the minibatch-precondition error (and, in the advanced
path, the ValueError of `min([])` when there are no partners) is raised
after the population loops, with every partner already fully populated —
not before, as the claim states. -/
theorem C3_errors_before_population (cfg : AdvConfig) (e : ErrKind)
    (he : (splitDataAdvanced cfg).err = some e) :
    ((∀ o ∈ (splitDataAdvanced cfg).populated, o = none)
      ∨ ((e = ErrKind.minibatchAssert ∨ e = ErrKind.valueError)
        ∧ ∀ o ∈ (splitDataAdvanced cfg).populated, o.isSome))
    ∧ ∀ (scfg : SimpleConfig) (mode : SimpleMode) (π : List ℕ) (e' : SimpleErr),
        (splitData scfg mode π).err = some e' →
        (∀ o ∈ (splitData scfg mode π).populated, o = none)
        ∨ (e' = SimpleErr.minibatchAssert
          ∧ ∀ o ∈ (splitData scfg mode π).populated, o.isSome) := by
  constructor
  · rcases splitDataAdvanced_cases cfg with h | ⟨herr, hpop⟩
    · exact Or.inl h
    · refine Or.inr ⟨?_, hpop⟩
      rcases herr with h0 | h1 | h2
      · rw [he] at h0; cases h0
      · rw [he] at h1
        exact Or.inl (Option.some.inj h1)
      · rw [he] at h2
        exact Or.inr (Option.some.inj h2)
  · intro scfg mode π e' he'
    rcases splitData_cases scfg mode π with h | ⟨herr, hpop⟩
    · exact Or.inl h
    · refine Or.inr ⟨?_, hpop⟩
      rcases herr with h0 | h1
      · rw [he'] at h0; cases h0
      · rw [he'] at h1
        exact Option.some.inj h1

unseal Rat.mul Rat.inv Rat.add Rat.sub in
/-- C3 counterexample: a configuration whose minibatch precondition fails
(5 train samples for the only partner, `minibatch_count = 20`): the
AssertionError is raised with the partner already populated with its 5
samples, so the error is not raised before population. -/
theorem C3_counterexample :
    (splitDataAdvanced advCfgMinibatch).err = some ErrKind.minibatchAssert
    ∧ (splitDataAdvanced advCfgMinibatch).populated = [some [0, 1, 2, 3, 4]]
    ∧ ¬ ∀ o ∈ (splitDataAdvanced advCfgMinibatch).populated, o = none := by
  decide

unseal Rat.mul Rat.inv Rat.add Rat.sub in
/-- Witness for the amended C3 at the failing-minibatch configuration. -/
theorem C3_witness :
    ((∀ o ∈ (splitDataAdvanced advCfgMinibatch).populated, o = none)
      ∨ ((ErrKind.minibatchAssert = ErrKind.minibatchAssert
          ∨ ErrKind.minibatchAssert = ErrKind.valueError)
        ∧ ∀ o ∈ (splitDataAdvanced advCfgMinibatch).populated, o.isSome))
    ∧ ∀ (scfg : SimpleConfig) (mode : SimpleMode) (π : List ℕ) (e' : SimpleErr),
        (splitData scfg mode π).err = some e' →
        (∀ o ∈ (splitData scfg mode π).populated, o = none)
        ∨ (e' = SimpleErr.minibatchAssert
          ∧ ∀ o ∈ (splitData scfg mode π).populated, o.isSome) :=
  C3_errors_before_population advCfgMinibatch ErrKind.minibatchAssert (by decide)

end ClaimC3

section ClaimC4

lemma assignWalk_block_subset (cfg : AdvConfig) :
    ∀ {ids : List ℕ} {off : ℕ} {p : ℕ × List ℤ}, p ∈ assignWalk cfg ids off →
      p.2 ⊆ cfg.labels.drop off := by
  intro ids
  induction ids with
  | nil => intro off p hp; cases hp
  | cons i rest ih =>
      intro off p hp
      rcases List.mem_cons.mp hp with rfl | hp'
      · exact List.take_subset _ _
      · intro x hx
        have hsub := ih hp' hx
        have heq : List.drop (pcc cfg i) (cfg.labels.drop off)
            = cfg.labels.drop (off + pcc cfg i) := List.drop_drop _ _ _
        rw [← heq] at hsub
        exact List.drop_subset _ _ hsub

lemma assignWalk_pairwise_disjoint (cfg : AdvConfig) (hnd : cfg.labels.Nodup) :
    ∀ (ids : List ℕ) (off : ℕ),
      List.Pairwise (fun p q => p.2.Disjoint q.2) (assignWalk cfg ids off) := by
  intro ids
  induction ids with
  | nil => intro off; exact List.Pairwise.nil
  | cons i rest ih =>
      intro off
      refine List.pairwise_cons.mpr ⟨?_, ih (off + pcc cfg i)⟩
      intro q hq
      have hq2 : q.2 ⊆ cfg.labels.drop (off + pcc cfg i) := assignWalk_block_subset cfg hq
      have hdropnd : (cfg.labels.drop off).Nodup := hnd.sublist (List.drop_sublist _ _)
      have hsplit : (cfg.labels.drop off).take (pcc cfg i)
          ++ (cfg.labels.drop off).drop (pcc cfg i) = cfg.labels.drop off :=
        List.take_append_drop _ _
      have hdisj : ((cfg.labels.drop off).take (pcc cfg i)).Disjoint
          ((cfg.labels.drop off).drop (pcc cfg i)) := by
        have := hsplit ▸ hdropnd
        exact (List.nodup_append.mp this).2.2
      intro x hx hx2
      refine hdisj hx ?_
      have : q.2 ⊆ (cfg.labels.drop off).drop (pcc cfg i) := by
        rw [List.drop_drop]
        exact hq2
      exact this hx2

lemma assignWalk_keys (cfg : AdvConfig) :
    ∀ (ids : List ℕ) (off : ℕ), (assignWalk cfg ids off).map Prod.fst = ids
  | [], _ => rfl
  | i :: rest, off => by
      simp only [assignWalk, List.map_cons]
      rw [assignWalk_keys cfg rest]

lemma lookupD_mem_of_mem_keys :
    ∀ {xs : List (ℕ × List ℤ)} {i : ℕ}, i ∈ xs.map Prod.fst →
      (i, lookupD i xs) ∈ xs := by
  intro xs
  induction xs with
  | nil => intro i hi; cases hi
  | cons p rest ih =>
      intro i hi
      by_cases hpi : p.1 = i
      · have hl : lookupD i (p :: rest) = p.2 := by
          simp only [lookupD, if_pos hpi]
        rw [hl]
        have hp : (i, p.2) = p := by
          rw [← hpi]
        rw [hp]
        exact List.mem_cons_self _ _
      · have hl : lookupD i (p :: rest) = lookupD i rest := by
          simp only [lookupD, if_neg hpi]
        rw [hl]
        refine List.mem_cons_of_mem _ (ih ?_)
        rcases (by simpa [List.map_cons] using hi : i = p.1 ∨ ∃ x, (i, x) ∈ rest) with
          h1 | ⟨x, hx⟩
        · exact absurd h1.symm hpi
        · exact List.mem_map.mpr ⟨(i, x), hx, rfl⟩

/-- C4: for every advanced-mode configuration with distinct labels, the
cluster lists assigned to two distinct specific partners are disjoint: no
label appears in the `clusters_list` of two different specific partners. -/
theorem C4_specific_clusters_disjoint (cfg : AdvConfig)
    (hnd : cfg.labels.Nodup) {i j : ℕ}
    (hi : i ∈ specIds cfg) (hj : j ∈ specIds cfg) (hij : i ≠ j) :
    (clustersOfSpec cfg i).Disjoint (clustersOfSpec cfg j) := by
  have hi' : i ∈ (specAssign cfg).map Prod.fst := by
    rw [specAssign, assignWalk_keys]
    exact (mem_specSorted cfg).mpr hi
  have hj' : j ∈ (specAssign cfg).map Prod.fst := by
    rw [specAssign, assignWalk_keys]
    exact (mem_specSorted cfg).mpr hj
  have hmi : (i, clustersOfSpec cfg i) ∈ specAssign cfg := lookupD_mem_of_mem_keys hi'
  have hmj : (j, clustersOfSpec cfg j) ∈ specAssign cfg := lookupD_mem_of_mem_keys hj'
  have hpw := assignWalk_pairwise_disjoint cfg hnd (specSorted cfg) 0
  have hne : (i, clustersOfSpec cfg i) ≠ (j, clustersOfSpec cfg j) := by
    intro h
    exact hij (congrArg Prod.fst h)
  have hsym : Symmetric fun p q : ℕ × List ℤ => p.2.Disjoint q.2 :=
    fun p q h => List.Disjoint.symm h
  exact List.Pairwise.forall hsym hpw hmi hmj hne

unseal Rat.mul Rat.inv Rat.add Rat.sub in
/-- Witness for C4: two specific partners with 2 and 1 clusters over three
labels receive disjoint blocks. -/
theorem C4_witness :
    (clustersOfSpec advCfgTwoSpec 0).Disjoint (clustersOfSpec advCfgTwoSpec 1) :=
  C4_specific_clusters_disjoint advCfgTwoSpec (by decide) (by decide) (by decide)
    (by decide)

end ClaimC4

section ClaimC6

lemma filterMap_id_map_some (l : List α) : (l.map some).filterMap id = l := by
  simp

lemma length_trainPieces (cfg : SimpleConfig) (tIdx : List ℕ) :
    (trainPieces cfg tIdx).length = (codeSplitFracs cfg.amounts cfg.partnersCount).length + 1 := by
  rw [trainPieces, length_npSplit, splittingIndicesTrain, List.length_map]

lemma length_testPieces (cfg : SimpleConfig) :
    (testPieces cfg).length = (codeSplitFracs cfg.amounts cfg.partnersCount).length + 1 := by
  rw [testPieces, length_npSplit, splittingIndicesTest, List.length_map]

lemma simplePopulate_train_flatten (cfg : SimpleConfig) (tIdx : List ℕ)
    (hamt : ∀ x ∈ cfg.amounts, 0 ≤ x) :
    (((simplePopulate cfg tIdx).populated.filterMap id).map Prod.fst).flatten = tIdx := by
  have hkey : ((((trainPieces cfg tIdx).zip (testPieces cfg)).map some).filterMap id).map
      Prod.fst = trainPieces cfg tIdx := by
    rw [filterMap_id_map_some]
    refine List.map_fst_zip _ _ ?_
    rw [length_trainPieces, length_testPieces]
  have hflat : (trainPieces cfg tIdx).flatten = tIdx :=
    npSplit_flatten tIdx _ (splitIndices_chain' hamt cfg.partnersCount cfg.nTrain)
  unfold simplePopulate
  dsimp only
  split
  · rw [hkey, hflat]
  · rw [hkey, hflat]

/-- C6: in simple mode, under both the random and the stratified sub-mode,
concatenating the train index slices assigned to the partners, in partner
order, yields a permutation of the original train index set: no duplicates,
no omissions. -/
theorem C6_simple_split_round_trip (cfg : SimpleConfig) (mode : SimpleMode) (π : List ℕ)
    (hlen : cfg.amounts.length = cfg.partnersCount)
    (hsum : cfg.amounts.sum = 1)
    (hK : cfg.partnersCount ≠ 1)
    (hamt : ∀ x ∈ cfg.amounts, 0 ≤ x)
    (hmode : mode = SimpleMode.random ∨ mode = SimpleMode.stratified)
    (hπ : mode = SimpleMode.random → π.Perm (List.range cfg.nTrain)) :
    (((splitData cfg mode π).populated.filterMap id).map Prod.fst).flatten.Perm
      (List.range cfg.nTrain) := by
  unfold splitData
  dsimp only
  rw [if_neg (by rw [hlen]; exact fun h => h rfl), if_neg (fun h => h hsum), if_neg hK]
  rcases hmode with rfl | rfl
  · rw [simplePopulate_train_flatten cfg π hamt]
    exact hπ rfl
  · rw [simplePopulate_train_flatten cfg (List.range cfg.nTrain) hamt]

unseal Rat.mul Rat.inv Rat.add Rat.sub in
/-- Witness for C6: the 3-partner scenario with shares 1/2, 3/10, 1/5 in
random mode with the identity permutation. -/
theorem C6_witness :
    (((splitData simpleCfg3 SimpleMode.random (List.range 1000)).populated.filterMap
        id).map Prod.fst).flatten.Perm (List.range simpleCfg3.nTrain) :=
  C6_simple_split_round_trip simpleCfg3 SimpleMode.random (List.range 1000)
    (by decide) (by decide) (by decide) (by decide) (Or.inl rfl)
    (fun _ => by rw [show simpleCfg3.nTrain = 1000 from rfl])

end ClaimC6

section ClaimC7

lemma length_pySlice (l : List α) (a b : ℤ) :
    (pySlice l a b).length = sliceNorm l.length b - sliceNorm l.length a := by
  rw [pySlice, List.length_drop, List.length_take, Nat.min_eq_left (sliceNorm_le _ _)]

unseal Rat.mul Rat.inv Rat.add Rat.sub in
/-- C7: the simple splitter computes its `K-1` split points as the
cumulative sums of the first `K-1` fractions (the code's fill-forward loop
equals the spec's cumulative sum, for every fraction vector and every
partner count), scales and truncates them; and for 3 partners with shares
1/2, 3/10, 1/5 over 1000 train samples, the partner train-piece sizes are
exactly [500, 300, 200] whatever the shuffle permutation is. -/
theorem C7_split_points_cumsum_and_sizes :
    (∀ (a : List ℚ) (K : ℕ), codeSplitFracs a K = specCumsumFracs a K)
    ∧ ∀ π : List ℕ, π.Perm (List.range 1000) →
        (trainPieces simpleCfg3 π).map List.length = [500, 300, 200] := by
  refine ⟨codeSplitFracs_eq_spec, ?_⟩
  intro π hπ
  have hlen : π.length = 1000 := by simpa using hπ.length_eq
  have hidx : splittingIndicesTrain simpleCfg3 = [500, 800] := by decide
  rw [trainPieces, hidx]
  show (List.map List.length
    [pySlice π 0 500, pySlice π 500 800, pySlice π 800 (π.length : ℤ)]) = [500, 300, 200]
  have h0 : sliceNorm π.length 0 = 0 := by
    rw [sliceNorm_of_nonneg le_rfl]; simp
  have h500 : sliceNorm π.length 500 = 500 := by
    rw [show (500 : ℤ) = ((500 : ℕ) : ℤ) from rfl, sliceNorm_natCast, hlen]
    decide
  have h800 : sliceNorm π.length 800 = 800 := by
    rw [show (800 : ℤ) = ((800 : ℕ) : ℤ) from rfl, sliceNorm_natCast, hlen]
    decide
  have hend : sliceNorm π.length (π.length : ℤ) = 1000 := by
    rw [sliceNorm_natCast, hlen]
    decide
  simp only [List.map_cons, List.map_nil, length_pySlice, h0, h500, h800, hend]

/-- Witness for C7 at the identity permutation. -/
theorem C7_witness :
    (trainPieces simpleCfg3 (List.range 1000)).map List.length = [500, 300, 200] :=
  C7_split_points_cumsum_and_sizes.2 (List.range 1000) (List.Perm.refl _)

end ClaimC7

section ClaimC9

lemma npSplitGo_pieces_slice (l : List α) :
    ∀ {idxs : List ℤ} {prev : ℤ} {p : List α}, p ∈ npSplitGo l prev idxs →
      ∃ a b : ℕ, p = (l.take b).drop a := by
  intro idxs
  induction idxs with
  | nil =>
      intro prev p hp
      rcases List.mem_cons.mp hp with rfl | h
      · exact ⟨sliceNorm l.length prev, sliceNorm l.length l.length, rfl⟩
      · cases h
  | cons i rest ih =>
      intro prev p hp
      rcases List.mem_cons.mp hp with rfl | h
      · exact ⟨sliceNorm l.length prev, sliceNorm l.length i, rfl⟩
      · exact ih h

/-- C9: in simple mode the test side is mode-independent: the random
shuffle and the stratified sort touch only the train data, so for every
configuration and any two shuffle permutations, the populated test slices
(and the raised error) of the random run and of the stratified run are
identical, and every test piece is a contiguous in-order range of the
original test index set. -/
theorem C9_test_split_frame (cfg : SimpleConfig) (π πs : List ℕ) :
    ((splitData cfg SimpleMode.random π).populated.map (Option.map Prod.snd)
      = (splitData cfg SimpleMode.stratified πs).populated.map (Option.map Prod.snd)
    ∧ (splitData cfg SimpleMode.random π).err
      = (splitData cfg SimpleMode.stratified πs).err)
    ∧ ∀ piece ∈ testPieces cfg, ∃ a b : ℕ,
        piece = ((List.range cfg.nTest).take b).drop a := by
  constructor
  · have hsnd : ∀ tIdx : List ℕ,
        (simplePopulate cfg tIdx).populated.map (Option.map Prod.snd)
          = (testPieces cfg).map some := by
      intro tIdx
      have hzip : (((trainPieces cfg tIdx).zip (testPieces cfg)).map some).map
          (Option.map Prod.snd)
          = ((trainPieces cfg tIdx).zip (testPieces cfg)).map (fun p => some p.2) := by
        rw [List.map_map]
        rfl
      have hmapsnd : ((trainPieces cfg tIdx).zip (testPieces cfg)).map Prod.snd
          = testPieces cfg := by
        refine List.map_snd_zip _ _ ?_
        rw [length_trainPieces, length_testPieces]
      unfold simplePopulate
      dsimp only
      split
      · rw [hzip, show ((trainPieces cfg tIdx).zip (testPieces cfg)).map (fun p => some p.2)
          = (((trainPieces cfg tIdx).zip (testPieces cfg)).map Prod.snd).map some by
            rw [List.map_map]; rfl, hmapsnd]
      · rw [hzip, show ((trainPieces cfg tIdx).zip (testPieces cfg)).map (fun p => some p.2)
          = (((trainPieces cfg tIdx).zip (testPieces cfg)).map Prod.snd).map some by
            rw [List.map_map]; rfl, hmapsnd]
    have herr : ∀ tIdx : List ℕ, (simplePopulate cfg tIdx).err
        = if (cfg.minibatchCount : ℚ) ≤ pyMinQ cfg.amounts * (cfg.nTrain : ℚ) then none
          else some SimpleErr.minibatchAssert := by
      intro tIdx
      unfold simplePopulate
      dsimp only
      split
      · rfl
      · rfl

    unfold splitData
    dsimp only
    split
    · exact ⟨rfl, rfl⟩
    · split
      · exact ⟨rfl, rfl⟩
      · split
        · exact ⟨rfl, rfl⟩
        · exact ⟨by rw [hsnd π, hsnd (List.range cfg.nTrain)],
            by rw [herr π, herr (List.range cfg.nTrain)]⟩
  · intro piece hpiece
    exact npSplitGo_pieces_slice (List.range cfg.nTest) hpiece

unseal Rat.mul Rat.inv Rat.add Rat.sub in
/-- Witness for C9 at the 3-partner scenario: the first test piece is the
contiguous range [0, 50) of the 100-element test index set. -/
theorem C9_witness :
    ((splitData simpleCfg3 SimpleMode.random (List.range 1000)).populated.map
        (Option.map Prod.snd)
      = (splitData simpleCfg3 SimpleMode.stratified []).populated.map
        (Option.map Prod.snd))
    ∧ ∃ a b : ℕ, List.range 50 = ((List.range simpleCfg3.nTest).take b).drop a :=
  ⟨(C9_test_split_frame simpleCfg3 (List.range 1000) []).1.1,
    (C9_test_split_frame simpleCfg3 (List.range 1000) []).2 (List.range 50)
      (by decide)⟩

end ClaimC9

section ClaimC8

lemma sum_map_const_nat (l : List α) (c : ℕ) : (l.map fun _ => c).sum = l.length * c := by
  induction l with
  | nil => simp
  | cons x xs ih => simp [ih, Nat.succ_mul, Nat.add_comm]

lemma quota_nonneg (cfg : AdvConfig) {F : ℚ} (hF0 : 0 ≤ F)
    (hamt : ∀ x ∈ cfg.amounts, 0 ≤ x) (i : ℕ) : 0 ≤ quota cfg F i := by
  unfold quota
  refine pyInt_nonneg (div_nonneg ?_ (Nat.cast_nonneg _))
  exact_mod_cast finalNb_nonneg cfg hF0 hamt i

lemma quota_eq_ediv (cfg : AdvConfig) {F : ℚ} (hF0 : 0 ≤ F)
    (hamt : ∀ x ∈ cfg.amounts, 0 ≤ x) (i : ℕ) :
    quota cfg F i = finalNb cfg F i / (pcc cfg i : ℤ) := by
  unfold quota
  exact pyInt_div_natCast (finalNb_nonneg cfg hF0 hamt i) (pcc cfg i)

lemma take_length_eq_min (cfg : AdvConfig) {F : ℚ} (hF0 : 0 ≤ F)
    (hamt : ∀ x ∈ cfg.amounts, 0 ≤ x) (i : ℕ) (cl : ℤ) :
    ((pyTake (clusterIdx cfg cl) (quota cfg F i)).length : ℤ)
      = min (quota cfg F i) (countPerCluster cfg cl : ℤ) := by
  have hq : 0 ≤ quota cfg F i := quota_nonneg cfg hF0 hamt i
  rw [length_pyTake, sliceNorm_of_nonneg hq, length_clusterIdx]
  have : ((min (quota cfg F i).toNat (countPerCluster cfg cl) : ℕ) : ℤ)
      = min ((quota cfg F i).toNat : ℤ) (countPerCluster cfg cl : ℤ) := Nat.cast_min _ _
  rw [this, Int.toNat_of_nonneg hq]

lemma assignWalk_block_length (cfg : AdvConfig) :
    ∀ (ids : List ℕ) (off : ℕ),
      off + ((ids.map (pcc cfg)).sum) ≤ cfg.labels.length →
      ∀ p ∈ assignWalk cfg ids off, p.2.length = pcc cfg p.1 := by
  intro ids
  induction ids with
  | nil => intro off _ p hp; cases hp
  | cons i rest ih =>
      intro off hoff p hp
      rcases List.mem_cons.mp hp with rfl | hp'
      · simp only [List.length_take, List.length_drop]
        have : pcc cfg i ≤ cfg.labels.length - off := by
          simp only [List.map_cons, List.sum_cons] at hoff
          omega
        omega
      · refine ih (off + pcc cfg i) ?_ p hp'
        simp only [List.map_cons, List.sum_cons] at hoff
        omega

/-- C8: for every advanced-mode partner of a successful run, the populated
train set contains, for each cluster of its list, exactly
`min(final_nb_samples / cluster_count, cluster size)` samples; when every
cluster of the partner is at least the per-cluster quota, the partner's
actual train-set size falls short of its computed `final_nb_samples` by at
most `cluster_count - 1` samples (the integer-division remainder); and with
the coherence precondition, each specific partner's cluster list has
exactly `cluster_count` clusters. -/
theorem C8_populated_sizes (cfg : AdvConfig) {F : ℚ} (hF : finalF cfg = .ok F)
    (hamt : ∀ x ∈ cfg.amounts, 0 ≤ x) :
    (∀ i : ℕ, ∀ cl ∈ clustersOf cfg i,
        ((pyTake (clusterIdx cfg cl) (quota cfg F i)).length : ℤ)
          = min (quota cfg F i) (countPerCluster cfg cl : ℤ))
    ∧ (∀ i : ℕ, 0 < pcc cfg i → (clustersOf cfg i).length = pcc cfg i →
        (∀ cl ∈ clustersOf cfg i, quota cfg F i ≤ (countPerCluster cfg cl : ℤ)) →
        ((partnerTrainIdx cfg F i).length : ℤ) ≤ finalNb cfg F i
          ∧ finalNb cfg F i - ((partnerTrainIdx cfg F i).length : ℤ)
            ≤ (pcc cfg i : ℤ) - 1)
    ∧ (coherenceOk cfg → ∀ i ∈ specIds cfg, (clustersOf cfg i).length = pcc cfg i) := by
  have hF0 : 0 ≤ F := (finalF_bounds cfg hF hamt).1
  refine ⟨fun i cl _ => take_length_eq_min cfg hF0 hamt i cl, ?_, ?_⟩
  · intro i hcc hlen hbig
    have hq : 0 ≤ quota cfg F i := quota_nonneg cfg hF0 hamt i
    have hflat : (partnerTrainIdx cfg F i).length
        = (clustersOf cfg i).length * (quota cfg F i).toNat := by
      unfold partnerTrainIdx
      rw [List.length_flatten, List.map_map]
      have hcongr : ∀ cl ∈ clustersOf cfg i,
          (List.length ∘ fun cl => pyTake (clusterIdx cfg cl) (quota cfg F i)) cl
            = (quota cfg F i).toNat := by
        intro cl hcl
        have h1 := take_length_eq_min cfg hF0 hamt i cl
        have h2 := hbig cl hcl
        have h3 : min (quota cfg F i) (countPerCluster cfg cl : ℤ) = quota cfg F i :=
          min_eq_left h2
        have : ((pyTake (clusterIdx cfg cl) (quota cfg F i)).length : ℤ) = quota cfg F i := by
          rw [h1, h3]
        simpa [Function.comp] using congrArg Int.toNat this |>.trans (Int.toNat_of_nonneg hq ▸ rfl)
      rw [List.map_congr_left hcongr, sum_map_const_nat]
    have hquota := quota_eq_ediv cfg hF0 hamt i
    have hccz : (pcc cfg i : ℤ) ≠ 0 := by exact_mod_cast hcc.ne'
    have hccp : (0 : ℤ) < (pcc cfg i : ℤ) := by exact_mod_cast hcc
    have hdm := Int.ediv_add_emod (finalNb cfg F i) (pcc cfg i : ℤ)
    have hm0 : 0 ≤ finalNb cfg F i % (pcc cfg i : ℤ) := Int.emod_nonneg _ hccz
    have hm1 : finalNb cfg F i % (pcc cfg i : ℤ) < (pcc cfg i : ℤ) :=
      Int.emod_lt_of_pos _ hccp
    have hcast : ((partnerTrainIdx cfg F i).length : ℤ)
        = (pcc cfg i : ℤ) * (finalNb cfg F i / (pcc cfg i : ℤ)) := by
      rw [hflat, hlen]
      push_cast
      rw [Int.toNat_of_nonneg hq, hquota]
    constructor
    · rw [hcast]; omega
    · rw [hcast]; omega
  · intro hcoh i hi
    have hi' : i ∈ specSorted cfg := (mem_specSorted cfg).mpr hi
    have hki : pkind cfg i = SplitKind.specific := by
      have := (List.mem_filter.mp hi).2
      simpa using this
    have hsum : ((specSorted cfg).map (pcc cfg)).sum = specTotal cfg := by
      unfold specTotal
      exact ((sortKeyDesc_perm (pcc cfg) (specIds cfg)).map (pcc cfg)).sum_eq
    have hbound : 0 + ((specSorted cfg).map (pcc cfg)).sum ≤ cfg.labels.length := by
      rw [hsum]
      unfold coherenceOk at hcoh
      omega
    have hmem : (i, clustersOfSpec cfg i) ∈ specAssign cfg := by
      refine lookupD_mem_of_mem_keys ?_
      rw [specAssign, assignWalk_keys]
      exact hi'
    have := assignWalk_block_length cfg (specSorted cfg) 0 hbound
      (i, clustersOfSpec cfg i) hmem
    unfold clustersOf
    rw [hki]
    exact this

unseal Rat.mul Rat.inv Rat.add Rat.sub in
/-- Witness for C8: the single-partner configuration with one cluster of 5
samples and quota 5: the populated size equals `final_nb_samples` exactly
(shortfall 0 ≤ cluster_count - 1 = 0). -/
theorem C8_witness :
    ((partnerTrainIdx advCfgMinibatch 1 0).length : ℤ) ≤ finalNb advCfgMinibatch 1 0
    ∧ finalNb advCfgMinibatch 1 0 - ((partnerTrainIdx advCfgMinibatch 1 0).length : ℤ)
      ≤ (pcc advCfgMinibatch 0 : ℤ) - 1 :=
  (C8_populated_sizes advCfgMinibatch (by decide) (by decide)).2.1 0 (by decide)
    (by decide) (by decide)

end ClaimC8

section ClaimC10

/-- C10: `shorten_dataset_proportion` returns with the train and validation
arrays untouched when the proportion is exactly 1, raises ValueError exactly
when the proportion is negative, and accepts any proportion greater than 1
without error (despite its error message speaking of a proportion strictly
between 0 and 1). -/
theorem C10_shorten_dataset_proportion_behavior (p : ℚ) (πt πv : List ℕ) (st : DsState) :
    shortenDatasetProportion 1 πt πv st = .ok st
    ∧ ((∃ e, shortenDatasetProportion p πt πv st = .error e) ↔ p < 0)
    ∧ (1 < p → ∃ st', shortenDatasetProportion p πt πv st = .ok st') := by
  refine ⟨by simp [shortenDatasetProportion], ?_, ?_⟩
  · constructor
    · rintro ⟨e, he⟩
      unfold shortenDatasetProportion at he
      split at he
      · cases he
      · split at he
        · next h => exact h
        · cases he
    · intro hneg
      have hne : p ≠ 1 := by
        intro h
        rw [h] at hneg
        norm_num at hneg
      unfold shortenDatasetProportion
      rw [if_neg hne, if_pos hneg]
      exact ⟨(), rfl⟩
  · intro h1
    have hne : p ≠ 1 := fun h => by rw [h] at h1; exact lt_irrefl 1 h1
    have hnneg : ¬ p < 0 := by linarith
    unfold shortenDatasetProportion
    rw [if_neg hne, if_neg hnneg]
    exact ⟨_, rfl⟩

/-- Witness for C10 at proportion 2 on a tiny dataset. -/
theorem C10_witness :
    shortenDatasetProportion 1 [] [] ⟨[7], [7], [], []⟩ = .ok ⟨[7], [7], [], []⟩
    ∧ ∃ st', shortenDatasetProportion 2 [] [] ⟨[7], [7], [], []⟩ = .ok st' :=
  ⟨(C10_shorten_dataset_proportion_behavior 1 [] [] ⟨[7], [7], [], []⟩).1,
    (C10_shorten_dataset_proportion_behavior 2 [] [] ⟨[7], [7], [], []⟩).2.2 (by norm_num)⟩

end ClaimC10
